import Mathlib

/-!
Shallow embedding of the caption-formatting pipeline of the repository
(`src/main.py` and `src/bot.py`) and proofs about the specification claims.

Modelling conventions:
* Python strings are `String` / `List Char`; all text functions are total.
* Python `re` patterns are embedded one by one as dedicated matcher
  functions implementing the concrete pattern's search semantics
  (leftmost match, greedy/lazy quantifiers as in the source pattern,
  `.` not matching a newline, `$` also matching before a final newline).
* `re.IGNORECASE` is modelled as ASCII case folding (`lowerC`); the
  non-ASCII letters appearing in the patterns have no ASCII case.
* Python's `\s` and `str.strip` are modelled by the ASCII whitespace set,
  `\w` by ASCII alphanumerics plus underscore.
* Machine integers do not occur: the message counter is a `Nat`
  (Python ints are unbounded and the counter only increases from 0).
* The logging calls, `try/except` wrappers around pure string code (which
  cannot raise) and the unused `clean_caption` local of `parse_caption`
  are omitted; the network send of `send_to_dump_channel` is modelled by
  an explicit transport oracle giving the outcome of each attempt.
-/

/-- Python `\s` (ASCII part), also the character set of `str.strip`. -/
def isSpace (c : Char) : Bool :=
  c = ' ' || c = '\t' || c = '\n' || c = '\r' || c = '\x0b' || c = '\x0c'

/-- ASCII lower-casing, modelling `str.lower` / `re.IGNORECASE` folding. -/
def lowerC (c : Char) : Char :=
  if 'A' ≤ c && c ≤ 'Z' then Char.ofNat (c.toNat + 32) else c

/-- Python `\w` (Unicode): ASCII alphanumerics and underscore; a non-ASCII
character is a word character in Python exactly when `str.isalnum` holds,
which is true for every non-ASCII character occurring in the repository's
caption formats except the television emoji and the two Tamil combining
marks, so the model treats high characters as word characters apart from
those three. -/
def isWordChar (c : Char) : Bool :=
  c.isAlphanum || c = '_' || (128 ≤ c.toNat && !(c = '📺' || c = 'ி' || c = '்'))

/-- Drop trailing whitespace (right half of Python `str.strip`). -/
def dropTrailingWs (l : List Char) : List Char :=
  l.foldr (fun c acc => if acc.isEmpty && isSpace c then [] else c :: acc) []

/-- Python `str.strip` on character lists. -/
def trimList (l : List Char) : List Char := dropTrailingWs (l.dropWhile isSpace)

/-- Python `str.strip` on strings. -/
def trimS (s : String) : String := String.mk (trimList s.data)

/-- Python `str.lower` on strings (ASCII model). -/
def lowerS (s : String) : String := String.mk (s.data.map lowerC)

/-- Python substring containment `pat in hay` (`"" in hay` is true). -/
def containsSub (hay pat : List Char) : Bool :=
  match hay with
  | [] => pat.isEmpty
  | c :: t => pat.isPrefixOf (c :: t) || containsSub t pat

/-- `containsSub` on strings. -/
def containsSubS (hay pat : String) : Bool := containsSub hay.data pat.data

/-- Case-insensitive literal-prefix match: `pat` is given pre-folded; on
success returns the rest of the text after the literal. -/
def ciPrefix : List Char → List Char → Option (List Char)
  | [], t => some t
  | _ :: _, [] => none
  | p :: ps, c :: cs => if lowerC c = p then ciPrefix ps cs else none

/-- `re.search` position scan: try the position matcher `m` at every start
position from the left, first success wins (a match may also start at the
end of the text). -/
def reSearch {α : Type} (m : List Char → Option α) : List Char → Option α
  | [] => m []
  | c :: t =>
    match m (c :: t) with
    | some r => some r
    | none => reSearch m t

/-! ### Quality extraction (`AnimeParser.extract_quality`) -/

/-- Position matcher for `(\d+)[pP]`: greedy digit run, then `p`/`P`.
(The character after a maximal digit run is not a digit, so the greedy
group never backtracks.) -/
def matchQ1 : List Char → Option (List Char)
  | c :: cs =>
    if c.isDigit then
      match cs.dropWhile Char.isDigit with
      | p :: _ =>
        if p = 'p' || p = 'P' then some (c :: cs.takeWhile Char.isDigit) else none
      | [] => none
    else none
  | [] => none

/-- Position matcher for `\[(\d+)[pP]?\]`. -/
def matchQ2 : List Char → Option (List Char)
  | '[' :: cs =>
    if (cs.takeWhile Char.isDigit).isEmpty then none
    else
      match cs.dropWhile Char.isDigit with
      | ']' :: _ => some (cs.takeWhile Char.isDigit)
      | p :: ']' :: _ =>
        if p = 'p' || p = 'P' then some (cs.takeWhile Char.isDigit) else none
      | _ => none
  | _ => none

/-- Position matcher for a labelled quality `LBL\s*:\s*(\d+)[pP]?` where
`LBL` is a case-insensitive literal (given pre-folded); the optional
trailing `p` does not affect the captured group. -/
def matchQLabel (lbl : List Char) (l : List Char) : Option (List Char) :=
  match ciPrefix lbl l with
  | some r =>
    match r.dropWhile isSpace with
    | ':' :: r2 =>
      if ((r2.dropWhile isSpace).takeWhile Char.isDigit).isEmpty then none
      else some ((r2.dropWhile isSpace).takeWhile Char.isDigit)
    | _ => none
  | none => none

/-- Position matcher for `(\d+)\s*[pP]`. -/
def matchQ5 : List Char → Option (List Char)
  | c :: cs =>
    if c.isDigit then
      match (cs.dropWhile Char.isDigit).dropWhile isSpace with
      | p :: _ =>
        if p = 'p' || p = 'P' then some (c :: cs.takeWhile Char.isDigit) else none
      | [] => none
    else none
  | [] => none

/-- Allow-listed resolutions of `extract_quality`. -/
def allowedQualityNums : List Nat := [144, 240, 360, 480, 720, 1080, 1440, 2160]

/-- Python `int()` on a digit string. -/
def digitsToNat (l : List Char) : Nat := l.foldl (fun a c => 10 * a + (c.toNat - 48)) 0

/-- One step of the pattern loop in `extract_quality`: if this pattern
matched, return its group when valid, otherwise fall through to the
remaining patterns. -/
def qStep (valid : List Char → Bool) (o : Option (List Char))
    (next : Option (List Char)) : Option (List Char) :=
  match o with
  | some ds => if valid ds then some ds else next
  | none => next

/-- The five-pattern loop of `extract_quality`, parameterised by the
validity test applied to a matched number. -/
def qualityChainWith (valid : List Char → Bool) (l : List Char) : Option (List Char) :=
  qStep valid (reSearch matchQ1 l)
    (qStep valid (reSearch matchQ2 l)
      (qStep valid (reSearch (matchQLabel ("qᴜᴀʟɪᴛʏ".data.map lowerC)) l)
        (qStep valid (reSearch (matchQLabel ("quality".data.map lowerC)) l)
          (qStep valid (reSearch matchQ5 l) none))))

/-- Validity test of `src/main.py`:
`quality_number.isdigit() and int(quality_number) in [...]`. -/
def mainValidQ (ds : List Char) : Bool :=
  (!ds.isEmpty && ds.all Char.isDigit) && allowedQualityNums.contains (digitsToNat ds)

/-- Validity test of `src/bot.py`: `int(quality_number) in [...]` only. -/
def botValidQ (ds : List Char) : Bool :=
  allowedQualityNums.contains (digitsToNat ds)

/-! ### Language extraction (`AnimeParser.extract_language`) -/

/-- The `language_mappings` table, in insertion order. -/
def languageTable : List (List Char × String) :=
  [("தமிழ்".data, "Tam"), ("tamil".data, "Tam"), ("tam".data, "Tam"),
   ("english".data, "Eng"), ("eng".data, "Eng"),
   ("multi audio".data, "Multi"), ("multi".data, "Multi"),
   ("dual audio".data, "Dual"), ("dual".data, "Dual")]

/-- First table key contained in the given (already lower-cased) text. -/
def lookupLang (text : List Char) : Option String :=
  match languageTable.find? (fun kv => containsSub text kv.1) with
  | some kv => some kv.2
  | none => none

/-- Position matcher for `(?:Aᴜᴅɪᴏ|Audio)\s*:\s*([^,\n\]]+)`: the group is
the greedy run of characters other than `,`, newline and `]`. -/
def matchAudio (l : List Char) : Option (List Char) :=
  let after :=
    match ciPrefix ("aᴜᴅɪᴏ".data.map lowerC) l with
    | some r => some r
    | none => ciPrefix ("audio".data.map lowerC) l
  match after with
  | some r =>
    match r.dropWhile isSpace with
    | ':' :: r2 =>
      let grp := (r2.dropWhile isSpace).takeWhile (fun c => !(c = ',' || c = '\n' || c = ']'))
      if grp.isEmpty then none else some grp
    | _ => none
  | none => none

/-- Shared body of `extract_language` (identical in both source files):
first the labelled audio segment, then the whole lower-cased text. -/
def languageBody (l : List Char) : String :=
  let fromAudio :=
    match reSearch matchAudio l with
    | some grp => lookupLang ((trimList grp).map lowerC)
    | none => none
  match fromAudio with
  | some v => v
  | none =>
    match lookupLang (l.map lowerC) with
    | some v => v
    | none => ""

/-! ### Episode info extraction (`AnimeParser.extract_episode_info`) -/

/-- Python `str.zfill(2)` on a (digit) group: left-pad with `0` to width
at least two; wider strings are returned unchanged. -/
def zfill2 (l : List Char) : String :=
  if 2 ≤ l.length then String.mk l else String.mk (List.replicate (2 - l.length) '0' ++ l)

/-- Tail of the lazy group of `channel_se`: `\s+S(\d+)\s*EP(\d+)` at the
start of the list; returns the two digit groups. -/
def tailSE (l : List Char) : Option (List Char × List Char) :=
  if (l.takeWhile isSpace).isEmpty then none
  else
    match l.dropWhile isSpace with
    | s :: r =>
      if lowerC s = 's' then
        let d1 := r.takeWhile Char.isDigit
        if d1.isEmpty then none
        else
          match (r.dropWhile Char.isDigit).dropWhile isSpace with
          | e :: p :: r2 =>
            if lowerC e = 'e' && lowerC p = 'p' then
              let d2 := r2.takeWhile Char.isDigit
              if d2.isEmpty then none else some (d1, d2)
            else none
          | _ => none
      else none
    | [] => none

/-- The lazy group `(.+?)` of `channel_se`: grow the name one character at
a time (never across a newline, since `.` does not match one) and take the
first point where the tail pattern matches. -/
def lazySE (acc : List Char) : List Char → Option (List Char × List Char × List Char)
  | [] => none
  | c :: r =>
    if c = '\n' then none
    else
      match tailSE r with
      | some (d1, d2) => some (acc ++ [c], d1, d2)
      | none => lazySE (acc ++ [c]) r

/-- Backtracking of the greedy `\s*` before the lazy group of
`channel_se`: try consuming `j` whitespace characters, largest `j`
first (the caller starts at `wsRun.length`). -/
def seFromDash (wsRun rest : List Char) : Nat → Option (List Char × List Char × List Char)
  | 0 => lazySE [] (wsRun ++ rest)
  | j + 1 =>
    match lazySE [] (wsRun.drop (j + 1) ++ rest) with
    | some res => some res
    | none => seFromDash wsRun rest j

/-- Position matcher for `channel_se`:
`@\w+\s*-\s*(.+?)\s+S(\d+)\s*EP(\d+)`; returns (name, season, episode). -/
def matchChannelSE : List Char → Option (List Char × List Char × List Char)
  | '@' :: r =>
    if (r.takeWhile isWordChar).isEmpty then none
    else
      match (r.dropWhile isWordChar).dropWhile isSpace with
      | '-' :: r2 =>
        seFromDash (r2.takeWhile isSpace) (r2.dropWhile isSpace) (r2.takeWhile isSpace).length
      | _ => none
  | _ => none

/-- End test for the lazy group of `channel_bracket`: the continuation is
`(?:\s*\[|$)` (where `$` also matches before a final newline). -/
def cbDone (r : List Char) : Bool :=
  (match r.dropWhile isSpace with
   | '[' :: _ => true
   | _ => false) || r.isEmpty || r = ['\n']

/-- The lazy group `(.+?)` of `channel_bracket`. -/
def lazyCB (acc : List Char) : List Char → Option (List Char)
  | [] => none
  | c :: r =>
    if c = '\n' then none
    else if cbDone r then some (acc ++ [c])
    else lazyCB (acc ++ [c]) r

/-- Backtracking of the greedy `\s*` before the lazy group of
`channel_bracket`, largest consumption first. -/
def cbFromBracket (wsRun rest : List Char) : Nat → Option (List Char)
  | 0 => lazyCB [] (wsRun ++ rest)
  | j + 1 =>
    match lazyCB [] (wsRun.drop (j + 1) ++ rest) with
    | some res => some res
    | none => cbFromBracket wsRun rest j

/-- Position matcher for `channel_bracket`:
`@\w+\s*-\s*\[S(\d+)\s*EP(\d+)\]\s*(.+?)(?:\s*\[|$)`;
returns (season, episode, name) in the group order of the pattern. -/
def matchChannelCB : List Char → Option (List Char × List Char × List Char)
  | '@' :: r =>
    if (r.takeWhile isWordChar).isEmpty then none
    else
      match (r.dropWhile isWordChar).dropWhile isSpace with
      | '-' :: r2 =>
        match r2.dropWhile isSpace with
        | '[' :: s :: r3 =>
          if lowerC s = 's' then
            let d1 := r3.takeWhile Char.isDigit
            if d1.isEmpty then none
            else
              match (r3.dropWhile Char.isDigit).dropWhile isSpace with
              | e :: p :: r4 =>
                if lowerC e = 'e' && lowerC p = 'p' then
                  let d2 := r4.takeWhile Char.isDigit
                  if d2.isEmpty then none
                  else
                    match r4.dropWhile Char.isDigit with
                    | ']' :: r5 =>
                      match cbFromBracket (r5.takeWhile isSpace) (r5.dropWhile isSpace)
                          (r5.takeWhile isSpace).length with
                      | some nm => some (d1, d2, nm)
                      | none => none
                    | _ => none
                else none
              | _ => none
          else none
        | _ => none
      | _ => none
  | _ => none

/-- Position matcher for `bracket_se`: `\[S(\d+)\s*E(\d+)\]`. -/
def matchBracketSE : List Char → Option (List Char × List Char)
  | '[' :: s :: r =>
    if lowerC s = 's' then
      let d1 := r.takeWhile Char.isDigit
      if d1.isEmpty then none
      else
        match (r.dropWhile Char.isDigit).dropWhile isSpace with
        | e :: r2 =>
          if lowerC e = 'e' then
            let d2 := r2.takeWhile Char.isDigit
            if d2.isEmpty then none
            else
              match r2.dropWhile Char.isDigit with
              | ']' :: _ => some (d1, d2)
              | _ => none
          else none
        | [] => none
    else none
  | _ => none

/-- Position matcher for `bracket_sep`: `\[S(\d+)\s*EP(\d+)\]`. -/
def matchBracketSEP : List Char → Option (List Char × List Char)
  | '[' :: s :: r =>
    if lowerC s = 's' then
      let d1 := r.takeWhile Char.isDigit
      if d1.isEmpty then none
      else
        match (r.dropWhile Char.isDigit).dropWhile isSpace with
        | e :: p :: r2 =>
          if lowerC e = 'e' && lowerC p = 'p' then
            let d2 := r2.takeWhile Char.isDigit
            if d2.isEmpty then none
            else
              match r2.dropWhile Char.isDigit with
              | ']' :: _ => some (d1, d2)
              | _ => none
          else none
        | _ => none
    else none
  | _ => none

/-- Position matcher for `simple_se`: `S(\d+)\s*E(\d+)`. -/
def matchSimpleSE : List Char → Option (List Char × List Char)
  | s :: r =>
    if lowerC s = 's' then
      let d1 := r.takeWhile Char.isDigit
      if d1.isEmpty then none
      else
        match (r.dropWhile Char.isDigit).dropWhile isSpace with
        | e :: r2 =>
          if lowerC e = 'e' then
            let d2 := r2.takeWhile Char.isDigit
            if d2.isEmpty then none else some (d1, d2)
          else none
        | [] => none
    else none
  | [] => none

/-- Position matcher for `simple_ep`: `S(\d+)\s*EP(\d+)`. -/
def matchSimpleEP : List Char → Option (List Char × List Char)
  | s :: r =>
    if lowerC s = 's' then
      let d1 := r.takeWhile Char.isDigit
      if d1.isEmpty then none
      else
        match (r.dropWhile Char.isDigit).dropWhile isSpace with
        | e :: p :: r2 =>
          if lowerC e = 'e' && lowerC p = 'p' then
            let d2 := r2.takeWhile Char.isDigit
            if d2.isEmpty then none else some (d1, d2)
          else none
        | _ => none
    else none
  | [] => none

/-- `re.split(r'S\d+', text)[0]`: prefix before the first `S` (either
case) followed by a digit. -/
def splitBeforeS : List Char → List Char
  | [] => []
  | c :: r =>
    if lowerC c = 's' && (match r with | d :: _ => d.isDigit | [] => false) then []
    else c :: splitBeforeS r

/-- `re.split(r'\[S\d+', text)[0]`: prefix before the first `[S<digit>`. -/
def splitBeforeBrkS : List Char → List Char
  | [] => []
  | c :: r =>
    if c = '[' &&
        (match r with
         | s :: d :: _ => lowerC s = 's' && d.isDigit
         | _ => false) then []
    else c :: splitBeforeBrkS r

/-- Position matcher for the structured title `📺\s*([^\[]+)\s*\[S(\d+)\]`.
The returned run is the whole stretch of non-`[` characters after the
emoji (the regex splits it into a leading `\s*` and the greedy group; the
caller immediately applies `strip`, for which the two carve-ups agree). -/
def matchTitleEmoji : List Char → Option (List Char × List Char)
  | '📺' :: r =>
    let run := r.takeWhile (fun c => c ≠ '[')
    if run.isEmpty then none
    else
      match r.dropWhile (fun c => c ≠ '[') with
      | '[' :: s :: r2 =>
        if lowerC s = 's' then
          let ds := r2.takeWhile Char.isDigit
          if ds.isEmpty then none
          else
            match r2.dropWhile Char.isDigit with
            | ']' :: _ => some (run, ds)
            | _ => none
        else none
      | _ => none
  | _ => none

/-- Position matcher for the stylised episode tag `Eᴘɪꜱᴏᴅᴇ\s*:\s*(\d+)`. -/
def matchEpisodeTag (l : List Char) : Option (List Char) :=
  match ciPrefix ("eᴘɪꜱᴏᴅᴇ".data.map lowerC) l with
  | some r =>
    match r.dropWhile isSpace with
    | ':' :: r2 =>
      let ds := (r2.dropWhile isSpace).takeWhile Char.isDigit
      if ds.isEmpty then none else some ds
    | _ => none
  | none => none

/-- `AnimeParser._parse_structured_format`: title and season from one
search, episode from an independent one, each defaulting on no match. -/
def parseStructuredFormat (l : List Char) : String × String × String :=
  let titlePart :=
    match reSearch matchTitleEmoji l with
    | some (run, ds) => (zfill2 ds, String.mk (trimList run))
    | none => ("01", "")
  let episode :=
    match reSearch matchEpisodeTag l with
    | some ds => zfill2 ds
    | none => "01"
  (titlePart.1, episode, titlePart.2)

/-- Trigger of the structured-emoji branch:
`"📺" in text and "Eᴘɪꜱᴏᴅᴇ" in text`. -/
def emojiCond (l : List Char) : Bool :=
  containsSub l "📺".data && containsSub l "Eᴘɪꜱᴏᴅᴇ".data

/-- Body of `extract_episode_info` on the stripped text (identical in both
source files): ordered pattern cascade with first match winning, and the
defaulting fallback. -/
def episodeInfoCore (clean_text : List Char) : String × String × String :=
  if emojiCond clean_text then parseStructuredFormat clean_text
  else
    match reSearch matchChannelSE clean_text with
    | some (nm, d1, d2) => (zfill2 d1, zfill2 d2, String.mk (trimList nm))
    | none =>
      match reSearch matchChannelCB clean_text with
      | some (d1, d2, nm) => (zfill2 d1, zfill2 d2, String.mk (trimList nm))
      | none =>
        match reSearch matchBracketSE clean_text with
        | some (d1, d2) =>
          (zfill2 d1, zfill2 d2, String.mk (trimList (splitBeforeBrkS clean_text)))
        | none =>
          match reSearch matchBracketSEP clean_text with
          | some (d1, d2) =>
            (zfill2 d1, zfill2 d2, String.mk (trimList (splitBeforeBrkS clean_text)))
          | none =>
            match reSearch matchSimpleSE clean_text with
            | some (d1, d2) =>
              (zfill2 d1, zfill2 d2, String.mk (trimList (splitBeforeS clean_text)))
            | none =>
              match reSearch matchSimpleEP clean_text with
              | some (d1, d2) =>
                (zfill2 d1, zfill2 d2, String.mk (trimList (splitBeforeS clean_text)))
              | none => ("01", "01", String.mk clean_text)

/-! ### Name cleaning (`AnimeParser.clean_anime_name`) -/

/-- Worker for `re.sub(r'\[.*?\]', '', ·)`-style removal with open/close
delimiters (`.` does not match a newline): `buf` holds the characters of a
pending group starting at an open delimiter.  A close delimiter drops the
buffered group (the lazy match from the first open to the first close); a
newline or the end of input flushes the buffer, since no character of it
can start a successful match (there is no close delimiter before the
newline/end for any of them). -/
def rdAux (opn cls : Char) : List Char → List Char → List Char
  | buf, [] => buf
  | buf, c :: r =>
    if buf.isEmpty then
      if c = opn then rdAux opn cls [c] r
      else c :: rdAux opn cls [] r
    else
      if c = cls then rdAux opn cls [] r
      else if c = '\n' then buf ++ '\n' :: rdAux opn cls [] r
      else rdAux opn cls (buf ++ [c]) r

/-- `re.sub(r'\[.*?\]', '', l)` (resp. parentheses) on character lists. -/
def removeDelims (opn cls : Char) (l : List Char) : List Char := rdAux opn cls [] l

/-- `re.sub(r'^@\w+\s*-\s*', '', name)`: one anchored removal. -/
def stripChannelTag (l : List Char) : List Char :=
  match l with
  | '@' :: r =>
    if (r.takeWhile isWordChar).isEmpty then l
    else
      match (r.dropWhile isWordChar).dropWhile isSpace with
      | '-' :: r2 => r2.dropWhile isSpace
      | _ => l
  | _ => l

/-- `re.sub(r'^\s*-\s*', '', name)`: anchored, so at most one removal. -/
def removeLeadingDash (l : List Char) : List Char :=
  match l.dropWhile isSpace with
  | '-' :: r => r.dropWhile isSpace
  | _ => l

/-- `re.sub(r'\s*-\s*$', '', name)`: the unique match (if any) spans from
the last `-` that is followed only by whitespace, extended left over
whitespace; at most one removal per call. -/
def removeTrailingDash (l : List Char) : List Char :=
  match l.reverse.dropWhile isSpace with
  | '-' :: r => (r.dropWhile isSpace).reverse
  | _ => l

/-- Emit an accumulated (possibly empty) word block as a singleton block
list. -/
def emitBlk (blk : List Char) : List (List Char) :=
  if blk.isEmpty then [] else [blk]

/-- Worker for `blocks`: `blk` is the word block accumulated so far. -/
def blocksAux (blk : List Char) : List Char → List (List Char)
  | [] => emitBlk blk
  | c :: cs =>
    if isWordChar c then blocksAux (blk ++ [c]) cs
    else emitBlk blk ++ blocksAux [] cs

/-- Maximal word-character blocks of a list, in order.  A case-insensitive
`\bWORD\b` pattern whose word consists of word characters matches exactly
the blocks case-insensitively equal to the word (the boundaries force the
match to cover a whole maximal block). -/
def blocks (l : List Char) : List (List Char) := blocksAux [] l

/-- Case-insensitive equality of a block with a pre-folded word. -/
def ciEqW (blk w : List Char) : Bool := blk.map lowerC = w

/-- Render a finished word block: replace it by `r` if it equals the word
`w` case-insensitively, keep it otherwise (empty blocks render to
nothing). -/
def flushBlk (w r blk : List Char) : List Char :=
  if blk.isEmpty then [] else if ciEqW blk w then r else blk

/-- Worker for `wsub`: `blk` is the word block accumulated so far. -/
def wsubAux (w r blk : List Char) : List Char → List Char
  | [] => flushBlk w r blk
  | c :: cs =>
    if isWordChar c then wsubAux w r (blk ++ [c]) cs
    else flushBlk w r blk ++ c :: wsubAux w r [] cs

/-- `re.sub(rf'\b{old}\b', new, name, flags=re.IGNORECASE)` for a word of
word characters: replace every maximal word-character block that is
case-insensitively equal to `w` (given pre-folded) by `r`. -/
def wsub (w r : List Char) (l : List Char) : List Char := wsubAux w r [] l

/-- The four word substitutions of `clean_anime_name`, in table order. -/
def wordSubs (l : List Char) : List Char :=
  wsub "subbed".data "Sub".data
    (wsub "dubbed".data "Dub".data
      (wsub "english".data "Eng".data
        (wsub "tamil".data "Tam".data l)))

/-- The removed punctuation class `[!@#$%^&*(),.?":{}|<>]`. -/
def punctChars : List Char :=
  ['!', '@', '#', '$', '%', '^', '&', '*', '(', ')', ',', '.', '?', '"', ':',
   '\x7b', '\x7d', '|', '<', '>']

def isPunct (c : Char) : Bool := punctChars.contains c

/-- `re.sub(r'[!@#$%^&*(),.?":{}|<>]', '', name)`. -/
def removePunct (l : List Char) : List Char := l.filter (fun c => !isPunct c)

/-- Worker for `collapseWs`: `prevWs` records whether the previous
character was whitespace (in which case further whitespace is absorbed
into the already-emitted space). -/
def collapseAux (prevWs : Bool) : List Char → List Char
  | [] => []
  | c :: cs =>
    if isSpace c then
      if prevWs then collapseAux true cs else ' ' :: collapseAux true cs
    else c :: collapseAux false cs

/-- `re.sub(r'\s+', ' ', name)`: each maximal whitespace run becomes one
space. -/
def collapseWs (l : List Char) : List Char := collapseAux false l

/-- Shared pipeline of `clean_anime_name` (textually identical in
`src/main.py` and `src/bot.py`). -/
def cleanAnimeNameSteps (l : List Char) : List Char :=
  trimList (collapseWs (removePunct (wordSubs
    (removeTrailingDash (removeLeadingDash
      (removeDelims '(' ')' (removeDelims '[' ']' (stripChannelTag l))))))))

/-! ### The two `AnimeParser` copies -/

namespace MainPy

/-- `AnimeParser.extract_episode_info` of `src/main.py`
(`clean_text = text.strip() if text else ""`). -/
def extract_episode_info (s : String) : String × String × String :=
  episodeInfoCore (if s = "" then [] else trimList s.data)

/-- `AnimeParser.extract_quality` of `src/main.py` (empty-text guard and
`isdigit` validity check present). -/
def extract_quality (s : String) : String :=
  if s = "" then "720P"
  else
    match qualityChainWith mainValidQ s.data with
    | some ds => String.mk ds ++ "P"
    | none => "720P"

/-- `AnimeParser.extract_language` of `src/main.py` (empty-text guard
present). -/
def extract_language (s : String) : String :=
  if s = "" then "" else languageBody s.data

/-- `AnimeParser.clean_anime_name` of `src/main.py`. -/
def clean_anime_name (name : String) : String :=
  if name = "" then "" else String.mk (cleanAnimeNameSteps name.data)

end MainPy

namespace BotPy

/-- `AnimeParser.extract_episode_info` of `src/bot.py`
(`clean_text = text.strip()`, no guard). -/
def extract_episode_info (s : String) : String × String × String :=
  episodeInfoCore (trimList s.data)

/-- `AnimeParser.extract_quality` of `src/bot.py` (no empty-text guard, no
`isdigit` check). -/
def extract_quality (s : String) : String :=
  match qualityChainWith botValidQ s.data with
  | some ds => String.mk ds ++ "P"
  | none => "720P"

/-- `AnimeParser.extract_language` of `src/bot.py` (no empty-text guard). -/
def extract_language (s : String) : String :=
  languageBody s.data

/-- `AnimeParser.clean_anime_name` of `src/bot.py` (body identical to the
`src/main.py` copy). -/
def clean_anime_name (name : String) : String :=
  if name = "" then "" else String.mk (cleanAnimeNameSteps name.data)

end BotPy

/-! ### The caption formatter (`parse_caption`) -/

/-- The module-level state read and written by `parse_caption` in
`src/main.py`. -/
structure BotState where
  message_count : Nat
  fixed_anime_name : String
  prefixes : List String
deriving DecidableEq

/-- Prefix-rotation choice of `parse_caption` (lines 423-428 of
`src/main.py`): guarded by non-emptiness, with the `/leech -n` fallback.
The index `(message_count - 1) / 3 % length` is always in range when the
list is non-empty, so the `getD` default is never used. -/
def pickTok (message_count : Nat) (ps : List String) : String :=
  if !ps.isEmpty then ps.getD ((message_count - 1) / 3 % ps.length) ""
  else "/leech -n"

namespace MainPy

/-- Everything of the formatted caption after the prefix token and its
separating space: season-episode tag, resolved name (fixed-name override,
else cleaned extracted name, else the literal default), optional language
tag, quality and extension, exactly as assembled by the f-string of
`parse_caption`. -/
def formattedTail (fixed_anime_name : String) (original : String) : String :=
  let info := extract_episode_info original
  let quality := extract_quality original
  let language := extract_language original
  let cleaned := clean_anime_name info.2.2
  let base :=
    if fixed_anime_name ≠ "" then fixed_anime_name
    else if cleaned ≠ "" then cleaned
    else "Unknown Anime"
  let anime :=
    if language ≠ "" && !containsSubS base language then trimS (base ++ " " ++ language)
    else base
  let ext :=
    if containsSubS (lowerS original) ".mp4" then ".mp4"
    else if containsSubS (lowerS original) ".avi" then ".avi"
    else ".mkv"
  "[S" ++ info.1 ++ "-E" ++ info.2.1 ++ "]" ++ " " ++ anime ++
    " [" ++ quality ++ "] [Single]" ++ ext

/-- `parse_caption` of `src/main.py` as a state transformer: increments
the counter, returns `""` on the empty caption, otherwise builds the
formatted string.  (The `clean_caption` local of the source is computed
but never used, and is omitted.) -/
def parse_caption (st : BotState) (caption : String) : BotState × String :=
  let st2 : BotState := { st with message_count := st.message_count + 1 }
  if caption = "" then (st2, "")
  else
    (st2, pickTok (st.message_count + 1) st.prefixes ++ " " ++
      formattedTail st.fixed_anime_name (trimS caption))

end MainPy

/-- Sequential processing of a list of captions from a given state. -/
def runSeq (st : BotState) : List String → BotState
  | [] => st
  | c :: cs => runSeq (MainPy.parse_caption st c).1 cs

/-! ### The dump forwarder (`send_to_dump_channel`) -/

/-- Outcome of one delivery attempt of the messaging transport:
success, a `TelegramError` with its message, or any other exception. -/
inductive Attempt where
  | success : Attempt
  | telegramError : String → Attempt
  | otherError : String → Attempt
deriving DecidableEq

namespace MainPy

/-- Retry loop of `send_to_dump_channel` in `src/main.py`; `r` is
`retry_count`, the oracle gives the outcome of each attempt, and the third
component counts the delivery attempts made.  `fuel` is the number of
remaining loop iterations (`max_retries - retry_count`, kept in lockstep
with `r` so the recursion is structural); when it reaches zero the guard
`r < 3` is false as well and the fall-through value is returned. -/
def dumpLoop (transport : Nat → Attempt) : Nat → Nat → Bool × String × Nat
  | 0, r => (false, "Max retries exceeded", r)
  | fuel + 1, r =>
    if r < 3 then
      match transport r with
      | Attempt.success => (true, "Success", r + 1)
      | Attempt.telegramError e =>
        if containsSub (lowerS e).data "chat not found".data then
          (false, "Dump channel not found", r + 1)
        else if containsSub (lowerS e).data "not enough rights".data ||
            containsSub (lowerS e).data "forbidden".data then
          (false, "Bot lacks permissions in dump channel", r + 1)
        else if containsSub (lowerS e).data "network".data ||
            containsSub (lowerS e).data "timeout".data then
          if r + 1 < 3 then dumpLoop transport fuel (r + 1)
          else (false, "Network error after 3 attempts", r + 1)
        else if 3 ≤ r + 1 then (false, "Failed after 3 attempts: " ++ e, r + 1)
        else dumpLoop transport fuel (r + 1)
      | Attempt.otherError e => (false, "Unexpected error: " ++ e, r + 1)
    else (false, "Max retries exceeded", r)

/-- `send_to_dump_channel` of `src/main.py`. -/
def send_to_dump_channel (dump_channel_id : String) (transport : Nat → Attempt) :
    Bool × String × Nat :=
  if dump_channel_id = "" then (false, "Dump channel not configured", 0)
  else dumpLoop transport 3 0

end MainPy

namespace BotPy

/-- Retry loop of `send_to_dump_channel` in `src/bot.py`: no network
branch, and only `not enough rights` (not `forbidden`) is terminal.
`fuel` as in the `src/main.py` loop. -/
def dumpLoop (transport : Nat → Attempt) : Nat → Nat → Bool × String × Nat
  | 0, r => (false, "Max retries exceeded", r)
  | fuel + 1, r =>
    if r < 3 then
      match transport r with
      | Attempt.success => (true, "Success", r + 1)
      | Attempt.telegramError e =>
        if containsSub (lowerS e).data "chat not found".data then
          (false, "Dump channel not found", r + 1)
        else if containsSub (lowerS e).data "not enough rights".data then
          (false, "Bot lacks permissions in dump channel", r + 1)
        else if 3 ≤ r + 1 then (false, "Failed after 3 attempts: " ++ e, r + 1)
        else dumpLoop transport fuel (r + 1)
      | Attempt.otherError e => (false, "Unexpected error: " ++ e, r + 1)
    else (false, "Max retries exceeded", r)

/-- `send_to_dump_channel` of `src/bot.py`. -/
def send_to_dump_channel (dump_channel_id : String) (transport : Nat → Attempt) :
    Bool × String × Nat :=
  if dump_channel_id = "" then (false, "Dump channel not configured", 0)
  else dumpLoop transport 3 0

end BotPy

/-! ### Auxiliary predicates for the idempotence analysis (claim C7) -/

/-- Whether some occurrence of `opn` is followed (anywhere later) by an
occurrence of `cls`.  When the list has no newline this is exactly the
condition under which `re.sub` of the lazy delimiter pattern can match. -/
def hasPair (opn cls : Char) : List Char → Bool
  | [] => false
  | c :: r => if c = opn then r.contains cls else hasPair opn cls r

/-- Whitespace-normal form: every whitespace character is a plain space
and no whitespace character is followed by another. -/
def isCollapsedWs : List Char → Bool
  | [] => true
  | [c] => !isSpace c || c = ' '
  | c :: c2 :: r =>
    (!isSpace c || (c = ' ' && !isSpace c2)) && isCollapsedWs (c2 :: r)

/-- Characters that do not interact with the cleaning pipeline's
removal rules: not in the stripped punctuation class, not a newline
(which blocks the `.`-based delimiter patterns), and not a dash. -/
def okChar (c : Char) : Bool := !isPunct c && c ≠ '\n' && c ≠ '-'

/-! ## Helper lemmas -/

/-- `parse_caption` always increments the counter and touches nothing
else of the state, whatever the caption is. -/
theorem parse_caption_fst (st : BotState) (c : String) :
    (MainPy.parse_caption st c).1 = { st with message_count := st.message_count + 1 } := by
  unfold MainPy.parse_caption
  split <;> rfl

/-- Processing `caps` captions adds `caps.length` to the counter and
leaves the rest of the state unchanged. -/
theorem runSeq_state (caps : List String) (st : BotState) :
    runSeq st caps = { st with message_count := st.message_count + caps.length } := by
  induction caps generalizing st with
  | nil => simp [runSeq]
  | cons c cs ih =>
    simp only [runSeq, parse_caption_fst, ih, List.length_cons]
    congr 1
    omega

/-- On a non-empty caption the formatted output starts with the selected
prefix token followed by a space. -/
theorem parse_caption_snd (st : BotState) (c : String) (hc : c ≠ "") :
    (MainPy.parse_caption st c).2 =
      pickTok (st.message_count + 1) st.prefixes ++ " " ++
        MainPy.formattedTail st.fixed_anime_name (trimS c) := by
  unfold MainPy.parse_caption
  rw [if_neg hc]

/-! ## Claim theorems -/

set_option maxRecDepth 100000

/-- Claim C1: with an empty fixed name, prefix list `["/leech -n"]` and
message counter 0, `parse_caption` on
`"@Channel - Naruto S01 EP05 [720p] Tamil"` returns exactly
`"/leech -n [S01-E05] Naruto Tam [720P] [Single].mkv"`. -/
theorem c1_parse_caption_scenario :
    (MainPy.parse_caption ⟨0, "", ["/leech -n"]⟩
        "@Channel - Naruto S01 EP05 [720p] Tamil").2 =
      "/leech -n [S01-E05] Naruto Tam [720P] [Single].mkv" := by decide

/-- Claim C2 (corrected): on the empty caption `parse_caption` produces
the empty string, but it does mutate state: the message counter is
incremented by one (the increment precedes the empty-input check); the
other state fields are unchanged. -/
theorem c2_empty_caption_amended (st : BotState) :
    MainPy.parse_caption st "" = ({ st with message_count := st.message_count + 1 }, "") :=
  rfl

/-- Claim C2 counterexample: starting from counter 0, the call on the
empty caption leaves the counter at 1, not 0 as the claim states. -/
theorem c2_counterexample :
    (MainPy.parse_caption ⟨0, "", ["/leech -n"]⟩ "").1.message_count ≠ 0 := by decide

/-- Claim C3: starting from counter 0, the `n`-th formatting call
(`n = caps.length + 1 ≥ 1`, whatever the earlier captions were) selects
the prefix at index `(n-1) / 3 % L` of the non-empty prefix list, and the
output starts with that prefix followed by a space. -/
theorem c3_rotation (fx : String) (ps : List String) (caps : List String) (c : String)
    (n : Nat) (hn : n = caps.length + 1) (hps : ps ≠ []) (hc : c ≠ "") :
    (MainPy.parse_caption (runSeq ⟨0, fx, ps⟩ caps) c).2 =
      ps.getD ((n - 1) / 3 % ps.length) "" ++ " " ++
        MainPy.formattedTail fx (trimS c) := by
  rw [runSeq_state, parse_caption_snd _ _ hc]
  simp only [pickTok, hn]
  rw [if_pos]
  · simp
  · simpa using hps

/-- Claim C3 witness: with two prefixes and three earlier calls, the
fourth call selects index `(4-1)/3 % 2 = 1`. -/
theorem c3_rotation_witness :
    (MainPy.parse_caption (runSeq ⟨0, "", ["/a", "/b"]⟩ ["x", "y", "z"]) "w").2 =
      ["/a", "/b"].getD ((4 - 1) / 3 % (["/a", "/b"] : List String).length) "" ++ " " ++
        MainPy.formattedTail "" (trimS "w") :=
  c3_rotation "" ["/a", "/b"] ["x", "y", "z"] "w" 4 (by decide) (by decide) (by decide)

/-- Claim C6 (corrected): the formatter produces no output exactly when
the raw caption is the empty string; every other caption — including the
whitespace-only `" "` — yields a (non-empty) formatted output, because the
emptiness test of the source is `if not caption`, which is false for
whitespace. -/
theorem c6_empty_iff_amended (st : BotState) (c : String) :
    (MainPy.parse_caption st c).2 = "" ↔ c = "" := by
  constructor
  · intro h
    by_contra hc
    rw [parse_caption_snd st c hc] at h
    have hl := congrArg String.length h
    rw [String.length_append, String.length_append] at hl
    simp at hl
    exact absurd hl.1.2 (by decide)
  · intro h
    subst h
    rfl

/-- Claim C6 counterexample: the whitespace-only caption `" "` does
produce a formatted output (the source only tests `if not caption`, which
is false for `" "`), contradicting the claim that whitespace-only input
yields none. -/
theorem c6_counterexample :
    (MainPy.parse_caption ⟨0, "", ["/leech -n"]⟩ " ").2 =
      "/leech -n [S01-E01] Unknown Anime [720P] [Single].mkv" ∧
    (MainPy.parse_caption ⟨0, "", ["/leech -n"]⟩ " ").2 ≠ "" := by decide

/-- Claim C9: with an empty prefix list a formatting call never fails and
performs no modulo-by-length: the guarded branch substitutes the built-in
default token `"/leech -n"`, and the formatted output starts with it. -/
theorem c9_empty_list_default :
    (∀ n : Nat, pickTok n [] = "/leech -n") ∧
    (∀ (st : BotState) (c : String), st.prefixes = [] → c ≠ "" →
      (MainPy.parse_caption st c).2 =
        "/leech -n" ++ " " ++ MainPy.formattedTail st.fixed_anime_name (trimS c)) := by
  constructor
  · intro n
    rfl
  · intro st c hps hc
    rw [parse_caption_snd st c hc, hps]
    rfl

/-- Claim C9 witness: concrete run with an empty prefix list. -/
theorem c9_empty_list_default_witness :
    (MainPy.parse_caption ⟨5, "", []⟩ "x").2 =
      "/leech -n" ++ " " ++ MainPy.formattedTail "" (trimS "x") :=
  c9_empty_list_default.2 ⟨5, "", []⟩ "x" rfl (by decide)

/-! ### Lemmas about the quality chain (claims C4 and C10) -/

/-- A property of matcher results lifts through the position scan. -/
theorem reSearch_prop {α : Type} {P : α → Prop} {m : List Char → Option α}
    (hm : ∀ l d, m l = some d → P d) :
    ∀ l d, reSearch m l = some d → P d := by
  intro l
  induction l with
  | nil => exact fun d h => hm [] d h
  | cons c t ih =>
    intro d h
    rw [reSearch] at h
    cases hmc : m (c :: t) with
    | some r => rw [hmc] at h; cases h; exact hm _ _ hmc
    | none => rw [hmc] at h; exact ih d h

/-- The group captured by `matchQ1` is a non-empty digit string. -/
theorem matchQ1_digits : ∀ l ds, matchQ1 l = some ds → ds ≠ [] ∧ ds.all Char.isDigit = true := by
  intro l ds h
  rw [matchQ1.eq_def] at h
  split at h
  · split at h
    · split at h
      · split at h
        · cases h; exact ⟨by simp, by simp [List.all_takeWhile]; assumption⟩
        · exact absurd h (by simp)
      · exact absurd h (by simp)
    · exact absurd h (by simp)
  · exact absurd h (by simp)

/-- The group captured by `matchQ2` is a non-empty digit string. -/
theorem matchQ2_digits : ∀ l ds, matchQ2 l = some ds → ds ≠ [] ∧ ds.all Char.isDigit = true := by
  intro l ds h
  rw [matchQ2.eq_def] at h
  split at h
  · split at h
    · exact absurd h (by simp)
    · split at h
      · cases h
        refine ⟨?_, List.all_takeWhile⟩
        intro hnil
        simp_all
      · split at h
        · cases h
          refine ⟨?_, List.all_takeWhile⟩
          intro hnil
          simp_all
        · exact absurd h (by simp)
      · exact absurd h (by simp)
  · exact absurd h (by simp)

/-- The group captured by a labelled matcher is a non-empty digit string. -/
theorem matchQLabel_digits (lbl : List Char) :
    ∀ l ds, matchQLabel lbl l = some ds → ds ≠ [] ∧ ds.all Char.isDigit = true := by
  intro l ds h
  rw [matchQLabel.eq_def] at h
  split at h
  · split at h
    · split at h
      · exact absurd h (by simp)
      · cases h
        refine ⟨?_, List.all_takeWhile⟩
        intro hnil
        simp_all
    · exact absurd h (by simp)
  · exact absurd h (by simp)

/-- The group captured by `matchQ5` is a non-empty digit string. -/
theorem matchQ5_digits : ∀ l ds, matchQ5 l = some ds → ds ≠ [] ∧ ds.all Char.isDigit = true := by
  intro l ds h
  rw [matchQ5.eq_def] at h
  split at h
  · split at h
    · split at h
      · split at h
        · cases h; exact ⟨by simp, by simp [List.all_takeWhile]; assumption⟩
        · exact absurd h (by simp)
      · exact absurd h (by simp)
    · exact absurd h (by simp)
  · exact absurd h (by simp)


/-- Destructing one step of the pattern loop. -/
theorem qStep_some {v : List Char → Bool} {o k : Option (List Char)} {ds : List Char}
    (h : qStep v o k = some ds) : (o = some ds ∧ v ds = true) ∨ k = some ds := by
  cases o with
  | none => exact Or.inr h
  | some d =>
    simp only [qStep] at h
    split at h
    · cases h
      exact Or.inl ⟨rfl, by assumption⟩
    · exact Or.inr h

/-- A group returned by the pattern loop passed the validity test. -/
theorem qualityChain_some_valid {v : List Char → Bool} {l ds : List Char}
    (h : qualityChainWith v l = some ds) : v ds = true := by
  unfold qualityChainWith at h
  rcases qStep_some h with ⟨_, hv⟩ | h
  · exact hv
  rcases qStep_some h with ⟨_, hv⟩ | h
  · exact hv
  rcases qStep_some h with ⟨_, hv⟩ | h
  · exact hv
  rcases qStep_some h with ⟨_, hv⟩ | h
  · exact hv
  rcases qStep_some h with ⟨_, hv⟩ | h
  · exact hv
  · exact absurd h (by simp)

/-- A group returned by the pattern loop is a non-empty digit string
(each of the five matchers only captures digit runs). -/
theorem qualityChain_digits {v : List Char → Bool} {l ds : List Char}
    (h : qualityChainWith v l = some ds) : ds ≠ [] ∧ ds.all Char.isDigit = true := by
  unfold qualityChainWith at h
  rcases qStep_some h with ⟨hs, _⟩ | h
  · exact reSearch_prop matchQ1_digits l ds hs
  rcases qStep_some h with ⟨hs, _⟩ | h
  · exact reSearch_prop matchQ2_digits l ds hs
  rcases qStep_some h with ⟨hs, _⟩ | h
  · exact reSearch_prop (matchQLabel_digits _) l ds hs
  rcases qStep_some h with ⟨hs, _⟩ | h
  · exact reSearch_prop (matchQLabel_digits _) l ds hs
  rcases qStep_some h with ⟨hs, _⟩ | h
  · exact reSearch_prop matchQ5_digits l ds hs
  · exact absurd h (by simp)

/-- On digit groups the two validity tests agree (the extra `isdigit`
conjunct of `src/main.py` is redundant for regex-captured digit runs). -/
theorem mainValidQ_eq_botValidQ {ds : List Char} (h1 : ds ≠ [])
    (h2 : ds.all Char.isDigit = true) : mainValidQ ds = botValidQ ds := by
  simp [mainValidQ, botValidQ, h2, List.isEmpty_iff, h1]

/-- The two pattern loops agree on every text. -/
theorem qualityChain_main_eq_bot (l : List Char) :
    qualityChainWith mainValidQ l = qualityChainWith botValidQ l := by
  have step : ∀ (o k k' : Option (List Char)),
      (∀ ds, o = some ds → ds ≠ [] ∧ ds.all Char.isDigit = true) → k = k' →
      qStep mainValidQ o k = qStep botValidQ o k' := by
    intro o k k' hd hk
    cases o with
    | none => simpa [qStep] using hk
    | some d =>
      obtain ⟨h1, h2⟩ := hd d rfl
      simp [qStep, mainValidQ_eq_botValidQ h1 h2, hk]
  unfold qualityChainWith
  refine step _ _ _ (fun ds h => reSearch_prop matchQ1_digits l ds h) ?_
  refine step _ _ _ (fun ds h => reSearch_prop matchQ2_digits l ds h) ?_
  refine step _ _ _ (fun ds h => reSearch_prop (matchQLabel_digits _) l ds h) ?_
  refine step _ _ _ (fun ds h => reSearch_prop (matchQLabel_digits _) l ds h) ?_
  exact step _ _ _ (fun ds h => reSearch_prop matchQ5_digits l ds h) rfl

/-- Claim C4 counterexample: on `"0720p"` the extractor returns
`"0720P"`, which is not a member of the claimed literal set — the digit
group is taken verbatim, so a leading zero survives validation (the
validator compares the numeric value 720). -/
theorem c4_counterexample :
    MainPy.extract_quality "0720p" = "0720P" ∧
    ¬ ("0720P" ∈ (["144P", "240P", "360P", "480P", "720P",
        "1080P", "1440P", "2160P"] : List String)) := by decide

/-- Claim C4 (corrected): `extract_quality` always returns a string
ending in `'P'`; when the pattern loop yields no allow-listed number the
default `"720P"` is returned; and any non-default result is the captured
digit string (taken verbatim, so possibly carrying leading zeros)
suffixed with `'P'`, whose numeric value is in the allow-list
{144, 240, 360, 480, 720, 1080, 1440, 2160}. -/
theorem c4_quality_amended :
    (∀ s : String, ∃ t, (MainPy.extract_quality s).data = t ++ ['P'])
  ∧ (∀ s : String, qualityChainWith mainValidQ s.data = none →
      MainPy.extract_quality s = "720P")
  ∧ (∀ (s : String) (ds : List Char), qualityChainWith mainValidQ s.data = some ds →
      MainPy.extract_quality s = String.mk ds ++ "P" ∧ ds ≠ [] ∧
      ds.all Char.isDigit = true ∧ digitsToNat ds ∈ allowedQualityNums) := by
  refine ⟨?_, ?_, ?_⟩
  · intro s
    by_cases hs : s = ""
    · subst hs
      exact ⟨"720".data, by decide⟩
    · unfold MainPy.extract_quality
      rw [if_neg hs]
      cases h : qualityChainWith mainValidQ s.data with
      | none => exact ⟨"720".data, by decide⟩
      | some ds => exact ⟨ds, rfl⟩
  · intro s h
    by_cases hs : s = ""
    · subst hs; rfl
    · unfold MainPy.extract_quality
      rw [if_neg hs, h]
  · intro s ds h
    have hd := qualityChain_digits h
    have hv := qualityChain_some_valid h
    have hmem : digitsToNat ds ∈ allowedQualityNums := by
      have : allowedQualityNums.contains (digitsToNat ds) = true := by
        simp only [mainValidQ, Bool.and_eq_true] at hv
        exact hv.2
      simpa using this
    refine ⟨?_, hd.1, hd.2, hmem⟩
    have hs : s ≠ "" := by
      intro hnil
      subst hnil
      rw [show ("" : String).data = [] from rfl] at h
      exact absurd (h ▸ (by decide : qualityChainWith mainValidQ [] = none)) (by simp)
    unfold MainPy.extract_quality
    rw [if_neg hs, h]

/-- Claim C4 witness: a caption with no quality token defaults to
`"720P"`, and `"x 1080p"` yields the allow-listed `"1080P"`. -/
theorem c4_quality_witness :
    MainPy.extract_quality "hello" = "720P" ∧
    MainPy.extract_quality "x 1080p" = String.mk ['1', '0', '8', '0'] ++ "P" ∧
    digitsToNat ['1', '0', '8', '0'] ∈ allowedQualityNums :=
  ⟨c4_quality_amended.2.1 "hello" (by decide),
   (c4_quality_amended.2.2 "x 1080p" ['1', '0', '8', '0'] (by decide)).1,
   (c4_quality_amended.2.2 "x 1080p" ['1', '0', '8', '0'] (by decide)).2.2.2⟩

/-- Claim C10: the two `AnimeParser` copies are equivalent: for every
input string the four methods of `src/main.py` return exactly what the
corresponding methods of `src/bot.py` return.  The textual differences
(the empty-text guards of main.py and its extra `isdigit` check) never
change a result: the guards coincide with what the shared body computes
on `""`, and regex-captured quality groups are always digit runs. -/
theorem c10_parser_equivalence :
    (∀ s : String, MainPy.extract_episode_info s = BotPy.extract_episode_info s)
  ∧ (∀ s : String, MainPy.extract_quality s = BotPy.extract_quality s)
  ∧ (∀ s : String, MainPy.extract_language s = BotPy.extract_language s)
  ∧ (∀ s : String, MainPy.clean_anime_name s = BotPy.clean_anime_name s) := by
  refine ⟨?_, ?_, ?_, fun s => rfl⟩
  · intro s
    by_cases hs : s = ""
    · subst hs; decide
    · unfold MainPy.extract_episode_info BotPy.extract_episode_info
      rw [if_neg hs]
  · intro s
    by_cases hs : s = ""
    · subst hs; decide
    · unfold MainPy.extract_quality BotPy.extract_quality
      rw [if_neg hs, qualityChain_main_eq_bot]
  · intro s
    by_cases hs : s = ""
    · subst hs; decide
    · unfold MainPy.extract_language BotPy.extract_language
      rw [if_neg hs]

/-! ### Lemmas about the episode-info extractor (claim C5) -/

/-- `zfill(2)` pads on the left only: the argument survives as a suffix
and the length is `max 2 (length)` — never truncated. -/
theorem zfill2_spec (g : List Char) :
    ∃ pad, (zfill2 g).data = pad ++ g ∧ (zfill2 g).length = max 2 g.length := by
  unfold zfill2
  by_cases h : 2 ≤ g.length
  · rw [if_pos h]
    exact ⟨[], by simp, by simp [String.length]; omega⟩
  · rw [if_neg h]
    refine ⟨List.replicate (2 - g.length) '0', rfl, ?_⟩
    simp [String.length]
    omega

/-- The padded field is always at least two characters long. -/
theorem zfill2_twole (g : List Char) : 2 ≤ (zfill2 g).length := by
  obtain ⟨pad, _, hlen⟩ := zfill2_spec g
  rw [hlen]
  exact Nat.le_max_left 2 _

/-- Season and episode of the structured-emoji branch are always at least
two characters long. -/
theorem parseStructured_len (l : List Char) :
    2 ≤ (parseStructuredFormat l).1.length ∧ 2 ≤ (parseStructuredFormat l).2.1.length := by
  unfold parseStructuredFormat
  cases h1 : reSearch matchTitleEmoji l with
  | none =>
    cases h2 : reSearch matchEpisodeTag l with
    | none => exact ⟨by dsimp only; decide, by dsimp only; decide⟩
    | some ds => exact ⟨by dsimp only; decide, zfill2_twole ds⟩
  | some rd =>
    obtain ⟨run, ds⟩ := rd
    cases h2 : reSearch matchEpisodeTag l with
    | none => exact ⟨zfill2_twole ds, by dsimp only; decide⟩
    | some ds2 => exact ⟨zfill2_twole ds, zfill2_twole ds2⟩

/-- Season and episode of the cascade are always at least two characters
long (each branch returns either the default `"01"` or a `zfill(2)`). -/
theorem episodeInfoCore_len (l : List Char) :
    2 ≤ (episodeInfoCore l).1.length ∧ 2 ≤ (episodeInfoCore l).2.1.length := by
  unfold episodeInfoCore
  by_cases he : emojiCond l = true
  · rw [if_pos he]
    exact parseStructured_len l
  · rw [if_neg he]
    cases h1 : reSearch matchChannelSE l with
    | some v =>
      obtain ⟨nm, d1, d2⟩ := v
      exact ⟨zfill2_twole d1, zfill2_twole d2⟩
    | none =>
    cases h2 : reSearch matchChannelCB l with
    | some v =>
      obtain ⟨d1, d2, nm⟩ := v
      exact ⟨zfill2_twole d1, zfill2_twole d2⟩
    | none =>
    cases h3 : reSearch matchBracketSE l with
    | some v =>
      obtain ⟨d1, d2⟩ := v
      exact ⟨zfill2_twole d1, zfill2_twole d2⟩
    | none =>
    cases h4 : reSearch matchBracketSEP l with
    | some v =>
      obtain ⟨d1, d2⟩ := v
      exact ⟨zfill2_twole d1, zfill2_twole d2⟩
    | none =>
    cases h5 : reSearch matchSimpleSE l with
    | some v =>
      obtain ⟨d1, d2⟩ := v
      exact ⟨zfill2_twole d1, zfill2_twole d2⟩
    | none =>
    cases h6 : reSearch matchSimpleEP l with
    | some v =>
      obtain ⟨d1, d2⟩ := v
      exact ⟨zfill2_twole d1, zfill2_twole d2⟩
    | none => exact ⟨by dsimp only; decide, by dsimp only; decide⟩

/-- The `src/main.py` wrapper always runs the shared cascade on the
stripped text (its extra guard coincides with stripping `""`). -/
theorem extract_episode_info_eq_core (s : String) :
    MainPy.extract_episode_info s = episodeInfoCore (trimList s.data) := by
  unfold MainPy.extract_episode_info
  by_cases hs : s = ""
  · subst hs; rfl
  · rw [if_neg hs]

/-- Claim C5: the episode-info extractor is total; the structured-emoji
branch has top priority; the channel-prefixed pattern is next and its
first match wins; if no pattern matches the defaults
`("01", "01", stripped input)` are returned; and the season/episode
fields are zero-padded to at least two characters and never truncated
(the captured group survives as a suffix of the field). -/
theorem c5_episode_info :
    (∀ s : String, emojiCond (trimList s.data) = true →
      MainPy.extract_episode_info s = parseStructuredFormat (trimList s.data))
  ∧ (∀ (s : String) (nm d1 d2 : List Char), emojiCond (trimList s.data) = false →
      reSearch matchChannelSE (trimList s.data) = some (nm, d1, d2) →
      MainPy.extract_episode_info s = (zfill2 d1, zfill2 d2, String.mk (trimList nm)))
  ∧ (∀ s : String, emojiCond (trimList s.data) = false →
      reSearch matchChannelSE (trimList s.data) = none →
      reSearch matchChannelCB (trimList s.data) = none →
      reSearch matchBracketSE (trimList s.data) = none →
      reSearch matchBracketSEP (trimList s.data) = none →
      reSearch matchSimpleSE (trimList s.data) = none →
      reSearch matchSimpleEP (trimList s.data) = none →
      MainPy.extract_episode_info s = ("01", "01", trimS s))
  ∧ (∀ s : String, 2 ≤ (MainPy.extract_episode_info s).1.length ∧
      2 ≤ (MainPy.extract_episode_info s).2.1.length)
  ∧ (∀ g : List Char, ∃ pad, (zfill2 g).data = pad ++ g ∧
      (zfill2 g).length = max 2 g.length) := by
  refine ⟨?_, ?_, ?_, ?_, zfill2_spec⟩
  · intro s he
    rw [extract_episode_info_eq_core]
    unfold episodeInfoCore
    rw [if_pos he]
  · intro s nm d1 d2 he hm
    rw [extract_episode_info_eq_core]
    unfold episodeInfoCore
    rw [if_neg (by simp [he]), hm]
  · intro s he h1 h2 h3 h4 h5 h6
    rw [extract_episode_info_eq_core]
    unfold episodeInfoCore
    rw [if_neg (by simp [he]), h1, h2, h3, h4, h5, h6]
    rfl
  · intro s
    rw [extract_episode_info_eq_core]
    exact episodeInfoCore_len (trimList s.data)

/-- Claim C5 witness: `"hello"` matches no pattern and falls through to
the defaults, and the structured-emoji input takes the top branch. -/
theorem c5_episode_info_witness :
    MainPy.extract_episode_info "hello" = ("01", "01", trimS "hello") ∧
    MainPy.extract_episode_info "📺 One [S3] Eᴘɪꜱᴏᴅᴇ : 7" =
      parseStructuredFormat (trimList "📺 One [S3] Eᴘɪꜱᴏᴅᴇ : 7".data) :=
  ⟨(c5_episode_info.2.2.1) "hello" (by decide) (by decide) (by decide) (by decide)
      (by decide) (by decide) (by decide),
   (c5_episode_info.1) "📺 One [S3] Eᴘɪꜱᴏᴅᴇ : 7" (by decide)⟩

/-! ### Lemmas about the dump forwarder (claim C8) -/

/-- The `src/main.py` retry loop never makes more attempts than it has
fuel (plus the attempts already counted). -/
theorem mainDumpLoop_att (t : Nat → Attempt) :
    ∀ fuel r, (MainPy.dumpLoop t fuel r).2.2 ≤ fuel + r := by
  intro fuel
  induction fuel with
  | zero => intro r; simp [MainPy.dumpLoop]
  | succ fuel ih =>
    intro r
    rw [MainPy.dumpLoop]
    split
    · cases t r with
      | success => dsimp only; omega
      | otherError e => dsimp only; omega
      | telegramError e =>
        dsimp only
        split
        · dsimp only; omega
        · split
          · dsimp only; omega
          · split
            · split
              · exact Nat.le_trans (ih (r + 1)) (by omega)
              · dsimp only; omega
            · split
              · dsimp only; omega
              · exact Nat.le_trans (ih (r + 1)) (by omega)
    · dsimp only; omega

/-- The `src/bot.py` retry loop never makes more attempts than it has
fuel (plus the attempts already counted). -/
theorem botDumpLoop_att (t : Nat → Attempt) :
    ∀ fuel r, (BotPy.dumpLoop t fuel r).2.2 ≤ fuel + r := by
  intro fuel
  induction fuel with
  | zero => intro r; simp [BotPy.dumpLoop]
  | succ fuel ih =>
    intro r
    rw [BotPy.dumpLoop]
    split
    · cases t r with
      | success => dsimp only; omega
      | otherError e => dsimp only; omega
      | telegramError e =>
        dsimp only
        split
        · dsimp only; omega
        · split
          · dsimp only; omega
          · split
            · dsimp only; omega
            · exact Nat.le_trans (ih (r + 1)) (by omega)
    · dsimp only; omega

/-- Claim C8 counterexample: in the `src/bot.py` forwarder a permission
error whose message reads `"Forbidden"` (the spec's own classification for
permission failures, tested by `src/main.py` but not by `src/bot.py`) is
retried: three delivery attempts are made instead of the claimed single
terminal one. -/
theorem c8_counterexample :
    BotPy.send_to_dump_channel "chan" (fun _ => Attempt.telegramError "Forbidden") =
      (false, "Failed after 3 attempts: Forbidden", 3) ∧
    ¬ (BotPy.send_to_dump_channel "chan"
        (fun _ => Attempt.telegramError "Forbidden")).2.2 ≤ 1 := by decide

/-- Claim C8 (corrected): with an empty destination both forwarders
return failure with the "not configured" detail and make zero delivery
attempts; a first-attempt error containing "chat not found" is terminal
after exactly one attempt in both; in `src/main.py` an error containing
"not enough rights" or "forbidden" is likewise terminal after one
attempt, but in `src/bot.py` only "not enough rights" is — a bare
"forbidden" error is retried there up to the cap, like any other
transport error; and neither forwarder ever makes more than 3 attempts. -/
theorem c8_dump_amended :
    (∀ t : Nat → Attempt,
      MainPy.send_to_dump_channel "" t = (false, "Dump channel not configured", 0) ∧
      BotPy.send_to_dump_channel "" t = (false, "Dump channel not configured", 0))
  ∧ (∀ (d : String) (t : Nat → Attempt) (e : String), d ≠ "" →
      t 0 = Attempt.telegramError e →
      containsSub (lowerS e).data "chat not found".data = true →
      MainPy.send_to_dump_channel d t = (false, "Dump channel not found", 1) ∧
      BotPy.send_to_dump_channel d t = (false, "Dump channel not found", 1))
  ∧ (∀ (d : String) (t : Nat → Attempt) (e : String), d ≠ "" →
      t 0 = Attempt.telegramError e →
      containsSub (lowerS e).data "chat not found".data = false →
      (containsSub (lowerS e).data "not enough rights".data ||
        containsSub (lowerS e).data "forbidden".data) = true →
      MainPy.send_to_dump_channel d t = (false, "Bot lacks permissions in dump channel", 1))
  ∧ (∀ (d : String) (t : Nat → Attempt) (e : String), d ≠ "" →
      t 0 = Attempt.telegramError e →
      containsSub (lowerS e).data "chat not found".data = false →
      containsSub (lowerS e).data "not enough rights".data = true →
      BotPy.send_to_dump_channel d t = (false, "Bot lacks permissions in dump channel", 1))
  ∧ (∀ (d : String) (t : Nat → Attempt),
      (MainPy.send_to_dump_channel d t).2.2 ≤ 3 ∧
      (BotPy.send_to_dump_channel d t).2.2 ≤ 3)
  ∧ (∀ (d : String) (t : Nat → Attempt) (e : String), d ≠ "" →
      (∀ n, t n = Attempt.telegramError e) →
      containsSub (lowerS e).data "chat not found".data = false →
      containsSub (lowerS e).data "not enough rights".data = false →
      BotPy.send_to_dump_channel d t = (false, "Failed after 3 attempts: " ++ e, 3)) := by
  refine ⟨?_, ?_, ?_, ?_, ?_, ?_⟩
  · intro t
    constructor <;> rfl
  · intro d t e hd ht hc
    constructor
    · unfold MainPy.send_to_dump_channel
      rw [if_neg hd, MainPy.dumpLoop, if_pos (by omega), ht]
      dsimp only
      rw [if_pos hc]
    · unfold BotPy.send_to_dump_channel
      rw [if_neg hd, BotPy.dumpLoop, if_pos (by omega), ht]
      dsimp only
      rw [if_pos hc]
  · intro d t e hd ht hc hperm
    unfold MainPy.send_to_dump_channel
    rw [if_neg hd, MainPy.dumpLoop, if_pos (by omega), ht]
    dsimp only
    rw [if_neg (by simp [hc]), if_pos hperm]
  · intro d t e hd ht hc hperm
    unfold BotPy.send_to_dump_channel
    rw [if_neg hd, BotPy.dumpLoop, if_pos (by omega), ht]
    dsimp only
    rw [if_neg (by simp [hc]), if_pos hperm]
  · intro d t
    constructor
    · unfold MainPy.send_to_dump_channel
      split
      · simp
      · exact Nat.le_trans (mainDumpLoop_att t 3 0) (by omega)
    · unfold BotPy.send_to_dump_channel
      split
      · simp
      · exact Nat.le_trans (botDumpLoop_att t 3 0) (by omega)
  · intro d t e hd ht hc hperm
    unfold BotPy.send_to_dump_channel
    rw [if_neg hd]
    rw [BotPy.dumpLoop, if_pos (by omega), ht 0]
    dsimp only
    rw [if_neg (by simp [hc]), if_neg (by simp [hperm]), if_neg (by omega)]
    rw [BotPy.dumpLoop, if_pos (by omega), ht 1]
    dsimp only
    rw [if_neg (by simp [hc]), if_neg (by simp [hperm]), if_neg (by omega)]
    rw [BotPy.dumpLoop, if_pos (by omega), ht 2]
    dsimp only
    rw [if_neg (by simp [hc]), if_neg (by simp [hperm]), if_pos (by omega)]

/-- Claim C8 witness: empty destination, a "chat not found" first
attempt, permission errors under both forwarders, and the attempt cap,
all at concrete transports. -/
theorem c8_dump_witness :
    MainPy.send_to_dump_channel "" (fun _ => Attempt.success) =
      (false, "Dump channel not configured", 0) ∧
    MainPy.send_to_dump_channel "c" (fun _ => Attempt.telegramError "Chat not found") =
      (false, "Dump channel not found", 1) ∧
    MainPy.send_to_dump_channel "c" (fun _ => Attempt.telegramError "Forbidden") =
      (false, "Bot lacks permissions in dump channel", 1) ∧
    BotPy.send_to_dump_channel "c" (fun _ => Attempt.telegramError "not enough rights") =
      (false, "Bot lacks permissions in dump channel", 1) ∧
    (MainPy.send_to_dump_channel "c" (fun _ => Attempt.telegramError "flood")).2.2 ≤ 3 ∧
    BotPy.send_to_dump_channel "c" (fun _ => Attempt.telegramError "Forbidden") =
      (false, "Failed after 3 attempts: " ++ "Forbidden", 3) :=
  ⟨(c8_dump_amended.1 _).1,
   (c8_dump_amended.2.1 "c" _ "Chat not found" (by decide) rfl (by decide)).1,
   c8_dump_amended.2.2.1 "c" _ "Forbidden" (by decide) rfl (by decide) (by decide),
   c8_dump_amended.2.2.2.1 "c" _ "not enough rights" (by decide) rfl (by decide) (by decide),
   (c8_dump_amended.2.2.2.2.1 "c" _).1,
   c8_dump_amended.2.2.2.2.2 "c" _ "Forbidden" (by decide) (fun _ => rfl)
     (by decide) (by decide)⟩

/-! ### Claim C7: character-flow lemmas for the cleaning pipeline -/

/-- Characters of the channel-tag strip come from the input. -/
theorem stripChannelTag_subset (l : List Char) : ∀ a ∈ stripChannelTag l, a ∈ l := by
  intro a ha
  rw [stripChannelTag.eq_def] at ha
  split at ha
  · next r =>
    split at ha
    · exact ha
    · split at ha
      · next r2 heq2 =>
        refine List.mem_cons_of_mem _ ?_
        have h1 : a ∈ r2 := (List.dropWhile_sublist isSpace).subset ha
        have h3 : a ∈ (r.dropWhile isWordChar).dropWhile isSpace := by
          rw [heq2]
          exact List.mem_cons_of_mem _ h1
        exact (List.dropWhile_sublist isWordChar).subset
          ((List.dropWhile_sublist isSpace).subset h3)
      · exact ha
  · exact ha

/-- Characters of the delimiter-removal output come from the buffer or
the input. -/
theorem rdAux_subset (opn cls : Char) :
    ∀ (l buf : List Char) (a : Char), a ∈ rdAux opn cls buf l → a ∈ buf ∨ a ∈ l := by
  intro l
  induction l with
  | nil => intro buf a ha; exact Or.inl ha
  | cons c r ih =>
    intro buf a ha
    rw [rdAux] at ha
    split at ha
    · split at ha
      · rcases ih _ _ ha with h | h
        · rcases List.mem_singleton.mp h with rfl
          exact Or.inr (List.mem_cons_self _ _)
        · exact Or.inr (List.mem_cons_of_mem _ h)
      · rcases List.mem_cons.mp ha with rfl | h
        · exact Or.inr (List.mem_cons_self _ _)
        · rcases ih _ _ h with h | h
          · exact absurd h (List.not_mem_nil a)
          · exact Or.inr (List.mem_cons_of_mem _ h)
    · split at ha
      · rcases ih _ _ ha with h | h
        · exact absurd h (List.not_mem_nil a)
        · exact Or.inr (List.mem_cons_of_mem _ h)
      · split at ha
        · next hnl =>
          rcases List.mem_append.mp ha with h | h
          · exact Or.inl h
          · rcases List.mem_cons.mp h with rfl | h
            · rw [← hnl]
              exact Or.inr (List.mem_cons_self _ _)
            · rcases ih _ _ h with h | h
              · exact absurd h (List.not_mem_nil a)
              · exact Or.inr (List.mem_cons_of_mem _ h)
        · rcases ih _ _ ha with h | h
          · rcases List.mem_append.mp h with h | h
            · exact Or.inl h
            · rcases List.mem_singleton.mp h with rfl
              exact Or.inr (List.mem_cons_self _ _)
          · exact Or.inr (List.mem_cons_of_mem _ h)

/-- Characters of the leading-dash removal come from the input. -/
theorem removeLeadingDash_subset (l : List Char) : ∀ a ∈ removeLeadingDash l, a ∈ l := by
  intro a ha
  rw [removeLeadingDash.eq_def] at ha
  split at ha
  · next r heq =>
    have h1 : a ∈ r := (List.dropWhile_sublist isSpace).subset ha
    have h2 : a ∈ l.dropWhile isSpace := by
      rw [heq]
      exact List.mem_cons_of_mem _ h1
    exact (List.dropWhile_sublist isSpace).subset h2
  · exact ha

/-- Characters of the trailing-dash removal come from the input. -/
theorem removeTrailingDash_subset (l : List Char) : ∀ a ∈ removeTrailingDash l, a ∈ l := by
  intro a ha
  rw [removeTrailingDash.eq_def] at ha
  split at ha
  · next r heq =>
    rw [List.mem_reverse] at ha
    have h1 : a ∈ r := (List.dropWhile_sublist isSpace).subset ha
    have h2 : a ∈ l.reverse.dropWhile isSpace := by
      rw [heq]
      exact List.mem_cons_of_mem _ h1
    exact List.mem_reverse.mp ((List.dropWhile_sublist isSpace).subset h2)
  · exact ha

/-- Characters of a word substitution come from the pending block, the
replacement or the input. -/
theorem wsubAux_subset (w r : List Char) :
    ∀ (l blk : List Char) (a : Char), a ∈ wsubAux w r blk l → a ∈ blk ∨ a ∈ r ∨ a ∈ l := by
  have hflush : ∀ (blk : List Char) (a : Char), a ∈ flushBlk w r blk → a ∈ blk ∨ a ∈ r := by
    intro blk a ha
    unfold flushBlk at ha
    split at ha
    · exact absurd ha (List.not_mem_nil a)
    · split at ha
      · exact Or.inr ha
      · exact Or.inl ha
  intro l
  induction l with
  | nil => intro blk a ha; rcases hflush _ _ ha with h | h; exacts [Or.inl h, Or.inr (Or.inl h)]
  | cons c cs ih =>
    intro blk a ha
    rw [wsubAux] at ha
    split at ha
    · rcases ih _ _ ha with h | h | h
      · rcases List.mem_append.mp h with h | h
        · exact Or.inl h
        · rcases List.mem_singleton.mp h with rfl
          exact Or.inr (Or.inr (List.mem_cons_self _ _))
      · exact Or.inr (Or.inl h)
      · exact Or.inr (Or.inr (List.mem_cons_of_mem _ h))
    · rcases List.mem_append.mp ha with h | h
      · rcases hflush _ _ h with h | h
        · exact Or.inl h
        · exact Or.inr (Or.inl h)
      · rcases List.mem_cons.mp h with rfl | h
        · exact Or.inr (Or.inr (List.mem_cons_self _ _))
        · rcases ih _ _ h with h | h | h
          · exact absurd h (List.not_mem_nil a)
          · exact Or.inr (Or.inl h)
          · exact Or.inr (Or.inr (List.mem_cons_of_mem _ h))

/-- Characters of the whitespace collapse come from the input or are the
inserted plain space. -/
theorem collapseAux_subset :
    ∀ (l : List Char) (prev : Bool) (a : Char), a ∈ collapseAux prev l → a ∈ l ∨ a = ' ' := by
  intro l
  induction l with
  | nil => intro prev a ha; exact absurd ha (List.not_mem_nil a)
  | cons c cs ih =>
    intro prev a ha
    rw [collapseAux] at ha
    split at ha
    · split at ha
      · rcases ih _ _ ha with h | h
        · exact Or.inl (List.mem_cons_of_mem _ h)
        · exact Or.inr h
      · rcases List.mem_cons.mp ha with rfl | h
        · exact Or.inr rfl
        · rcases ih _ _ h with h | h
          · exact Or.inl (List.mem_cons_of_mem _ h)
          · exact Or.inr h
    · rcases List.mem_cons.mp ha with rfl | h
      · exact Or.inl (List.mem_cons_self _ _)
      · rcases ih _ _ h with h | h
        · exact Or.inl (List.mem_cons_of_mem _ h)
        · exact Or.inr h

/-- `dropTrailingWs` splits off an all-whitespace suffix. -/
theorem dropTrailingWs_decomp (l : List Char) :
    ∃ sfx, l = dropTrailingWs l ++ sfx ∧ sfx.all isSpace = true := by
  induction l with
  | nil => exact ⟨[], rfl, rfl⟩
  | cons c r ih =>
    obtain ⟨sfx, hdec, hall⟩ := ih
    rw [show dropTrailingWs (c :: r) =
        (if (dropTrailingWs r).isEmpty && isSpace c then [] else c :: dropTrailingWs r)
      from rfl]
    split
    · next hcond =>
      rw [Bool.and_eq_true, List.isEmpty_iff] at hcond
      refine ⟨c :: r, by simp, ?_⟩
      rw [hdec, hcond.1]
      simp [hcond.2, hall]
    · exact ⟨sfx, by rw [List.cons_append, ← hdec], hall⟩

/-- Characters of `trimList` come from the input. -/
theorem trimList_subset (l : List Char) : ∀ a ∈ trimList l, a ∈ l := by
  intro a ha
  unfold trimList at ha
  obtain ⟨sfx, hdec, _⟩ := dropTrailingWs_decomp (l.dropWhile isSpace)
  have : a ∈ l.dropWhile isSpace := by
    rw [hdec]
    exact List.mem_append_left _ ha
  exact (List.dropWhile_sublist isSpace).subset this

/-! ### Claim C7: no-op lemmas for inert pipeline stages -/

/-- Without an `@` the channel-tag strip is the identity. -/
theorem stripChannelTag_id {l : List Char} (h : '@' ∉ l) : stripChannelTag l = l := by
  rw [stripChannelTag.eq_def]
  split
  · next r => exact absurd (List.mem_cons_self '@' r) h
  · rfl

/-- Without a dash the leading-dash removal is the identity. -/
theorem removeLeadingDash_id {l : List Char} (h : '-' ∉ l) : removeLeadingDash l = l := by
  rw [removeLeadingDash.eq_def]
  split
  · next r heq =>
    have hm : '-' ∈ l.dropWhile isSpace := by
      rw [heq]
      exact List.mem_cons_self _ _
    exact absurd ((List.dropWhile_sublist isSpace).subset hm) h
  · rfl

/-- Without a dash the trailing-dash removal is the identity. -/
theorem removeTrailingDash_id {l : List Char} (h : '-' ∉ l) : removeTrailingDash l = l := by
  rw [removeTrailingDash.eq_def]
  split
  · next r heq =>
    have hm : '-' ∈ l.reverse.dropWhile isSpace := by
      rw [heq]
      exact List.mem_cons_self _ _
    exact absurd (List.mem_reverse.mp ((List.dropWhile_sublist isSpace).subset hm)) h
  · rfl

/-- Without punctuation characters the punctuation strip is the identity. -/
theorem removePunct_id {l : List Char} (h : ∀ a ∈ l, isPunct a = false) :
    removePunct l = l :=
  List.filter_eq_self.mpr (fun a ha => by simp [h a ha])

/-- A list without the closing delimiter has no pair. -/
theorem hasPair_false_of_no_cls {opn cls : Char} :
    ∀ {l : List Char}, cls ∉ l → hasPair opn cls l = false := by
  intro l
  induction l with
  | nil => intro _; rfl
  | cons c r ih =>
    intro h
    rw [hasPair]
    split
    · cases hcon : r.contains cls with
      | false => rfl
      | true =>
        exact absurd (List.elem_iff.mp hcon) (fun hm => h (List.mem_cons_of_mem _ hm))
    · exact ih (fun hm => h (List.mem_cons_of_mem _ hm))

/-- A list without the opening delimiter has no pair. -/
theorem hasPair_false_of_no_opn {opn cls : Char} :
    ∀ {l : List Char}, opn ∉ l → hasPair opn cls l = false := by
  intro l
  induction l with
  | nil => intro _; rfl
  | cons c r ih =>
    intro h
    rw [hasPair]
    split
    · next hc => exact absurd (hc ▸ List.mem_cons_self c r) h
    · exact ih (fun hm => h (List.mem_cons_of_mem _ hm))

/-- With a non-empty buffer and no close delimiter or newline ahead, the
delimiter scan flushes the buffer and copies the rest verbatim. -/
theorem rdAux_flat {opn cls : Char} :
    ∀ (r : List Char), cls ∉ r → '\n' ∉ r → ∀ buf, buf ≠ [] →
      rdAux opn cls buf r = buf ++ r := by
  intro r
  induction r with
  | nil => intro _ _ buf _; rw [rdAux, List.append_nil]
  | cons c r' ih =>
    intro hcls hnl buf hbuf
    rw [rdAux]
    rw [if_neg (by simpa [List.isEmpty_iff] using hbuf)]
    rw [if_neg (by intro hc; subst hc; exact hcls (List.mem_cons_self _ _))]
    rw [if_neg (by intro hc; subst hc; exact hnl (List.mem_cons_self _ _))]
    rw [ih (fun hm => hcls (List.mem_cons_of_mem _ hm))
        (fun hm => hnl (List.mem_cons_of_mem _ hm)) _ (by simp)]
    simp

/-- Without a matchable pair (and without newlines) the delimiter removal
is the identity. -/
theorem removeDelims_id {opn cls : Char} :
    ∀ {l : List Char}, '\n' ∉ l → hasPair opn cls l = false →
      removeDelims opn cls l = l := by
  intro l
  induction l with
  | nil => intro _ _; rfl
  | cons c r ih =>
    intro hnl hp
    unfold removeDelims
    rw [rdAux]
    have h0 : ([] : List Char).isEmpty = true := rfl
    rw [if_pos h0]
    rw [hasPair] at hp
    split
    · next hc =>
      rw [if_pos hc] at hp
      have hcls : cls ∉ r := by
        intro hm
        have h1 : r.contains cls = true := List.elem_iff.mpr hm
        exact Bool.noConfusion (h1.symm.trans hp)
      rw [rdAux_flat r hcls (fun hm => hnl (List.mem_cons_of_mem _ hm)) [c] (by simp)]
      rfl
    · next hc =>
      rw [if_neg hc] at hp
      have := ih (fun hm => hnl (List.mem_cons_of_mem _ hm)) hp
      unfold removeDelims at this
      rw [this]

/-- The delimiter removal leaves no matchable pair behind when the input
has no newline. -/
theorem rdAux_nopair {opn cls : Char} (hoc : opn ≠ cls) :
    ∀ (l : List Char), '\n' ∉ l → ∀ buf, cls ∉ buf →
      hasPair opn cls (rdAux opn cls buf l) = false := by
  intro l
  induction l with
  | nil => intro _ buf hbuf; exact hasPair_false_of_no_cls hbuf
  | cons c r ih =>
    intro hnl buf hbuf
    rw [rdAux]
    split
    · split
      · next hc =>
        refine ih (fun hm => hnl (List.mem_cons_of_mem _ hm)) [c] ?_
        subst hc
        simpa using fun hcc => hoc hcc.symm
      · next hc =>
        rw [hasPair]
        rw [if_neg hc]
        exact ih (fun hm => hnl (List.mem_cons_of_mem _ hm)) [] (by simp)
    · split
      · exact ih (fun hm => hnl (List.mem_cons_of_mem _ hm)) [] (by simp)
      · next hc1 =>
        split
        · next hc =>
          subst hc
          exact absurd (List.mem_cons_self _ _) hnl
        · refine ih (fun hm => hnl (List.mem_cons_of_mem _ hm)) (buf ++ [c]) ?_
          intro hm
          rcases List.mem_append.mp hm with h | h
          · exact hbuf h
          · exact hc1 (List.mem_singleton.mp h).symm

/-! ### Claim C7: the delimiter-pair condition survives the later stages -/

/-- Filtering by a predicate satisfied by the search key does not change
containment. -/
theorem contains_filter {p : Char → Bool} {cls : Char} (hp : p cls = true) (r : List Char) :
    (r.filter p).contains cls = r.contains cls := by
  simp [List.elem_iff, List.mem_filter, hp]

/-- `hasPair` only depends on the subsequence of delimiter characters. -/
theorem hasPair_eq_filter (opn cls : Char) :
    ∀ l : List Char,
      hasPair opn cls l = hasPair opn cls (l.filter (fun c => c = opn || c = cls)) := by
  intro l
  induction l with
  | nil => rfl
  | cons c r ih =>
    rw [hasPair]
    by_cases hc : c = opn
    · subst hc
      rw [if_pos rfl, List.filter_cons_of_pos (by simp), hasPair, if_pos rfl,
        contains_filter (by simp)]
    · rw [if_neg hc]
      by_cases hcc : c = cls
      · subst hcc
        rw [List.filter_cons_of_pos (by simp), hasPair, if_neg hc, ih]
      · rw [List.filter_cons_of_neg (by simp [hc, hcc]), ih]

/-- Dropping leading whitespace does not change a whitespace-free filter. -/
theorem filter_dropWhile_ws {p : Char → Bool} (hsp : ∀ c, isSpace c = true → p c = false) :
    ∀ l : List Char, (l.dropWhile isSpace).filter p = l.filter p := by
  intro l
  induction l with
  | nil => rfl
  | cons c r ih =>
    rw [List.dropWhile_cons]
    split
    · next hs => rw [ih, List.filter_cons_of_neg (by simp [hsp c hs])]
    · rfl

/-- Dropping trailing whitespace does not change a whitespace-free filter. -/
theorem filter_dropTrailingWs_ws {p : Char → Bool}
    (hsp : ∀ c, isSpace c = true → p c = false) (l : List Char) :
    (dropTrailingWs l).filter p = l.filter p := by
  obtain ⟨sfx, hdec, hall⟩ := dropTrailingWs_decomp l
  conv_rhs => rw [hdec]
  rw [List.filter_append]
  have hnil : sfx.filter p = [] := by
    rw [List.filter_eq_nil_iff]
    intro a ha
    simp [hsp a (by simpa using List.all_eq_true.mp hall a ha)]
  rw [hnil, List.append_nil]

/-- Stripping does not change a whitespace-free filter. -/
theorem filter_trimList_ws {p : Char → Bool}
    (hsp : ∀ c, isSpace c = true → p c = false) (l : List Char) :
    (trimList l).filter p = l.filter p := by
  unfold trimList
  rw [filter_dropTrailingWs_ws hsp, filter_dropWhile_ws hsp]

/-- Whitespace collapsing does not change a whitespace-free filter. -/
theorem filter_collapseAux_ws {p : Char → Bool}
    (hsp : ∀ c, isSpace c = true → p c = false) :
    ∀ (l : List Char) (prev : Bool), (collapseAux prev l).filter p = l.filter p := by
  intro l
  induction l with
  | nil => intro _; rfl
  | cons c r ih =>
    intro prev
    rw [collapseAux]
    split
    · next hs =>
      split
      · rw [ih, List.filter_cons_of_neg (by simp [hsp c hs])]
      · rw [List.filter_cons_of_neg (by simp [hsp ' ' (by decide)]), ih,
          List.filter_cons_of_neg (by simp [hsp c hs])]
    · next hs =>
      by_cases hp : p c = true
      · rw [List.filter_cons_of_pos hp, List.filter_cons_of_pos hp, ih]
      · rw [List.filter_cons_of_neg (by simp [hp]), List.filter_cons_of_neg (by simp [hp]), ih]

/-- Word-character lists are invisible to a non-word filter. -/
theorem filter_nil_of_word {p : Char → Bool}
    (hwp : ∀ a, p a = true → isWordChar a = false) {m : List Char}
    (hm : m.all isWordChar = true) : m.filter p = [] := by
  rw [List.filter_eq_nil_iff]
  intro a ha
  intro hpa
  have hw := List.all_eq_true.mp hm a ha
  rw [hwp a hpa] at hw
  exact Bool.noConfusion hw

/-- Word substitution does not change a non-word filter. -/
theorem filter_wsubAux_word {p : Char → Bool} {w r : List Char}
    (hwp : ∀ a, p a = true → isWordChar a = false) (hr : r.all isWordChar = true) :
    ∀ (l blk : List Char), blk.all isWordChar = true →
      (wsubAux w r blk l).filter p = l.filter p := by
  have hflush : ∀ blk : List Char, blk.all isWordChar = true →
      (flushBlk w r blk).filter p = [] := by
    intro blk hblk
    unfold flushBlk
    split
    · rfl
    · split
      · exact filter_nil_of_word hwp hr
      · exact filter_nil_of_word hwp hblk
  intro l
  induction l with
  | nil => intro blk hblk; rw [wsubAux, hflush blk hblk]; rfl
  | cons c cs ih =>
    intro blk hblk
    rw [wsubAux]
    split
    · next hword =>
      rw [ih (blk ++ [c]) (by simp [List.all_eq_true] at hblk ⊢; exact ⟨hblk, hword⟩)]
      rw [List.filter_cons_of_neg]
      intro hpc
      rw [hwp c (by simpa using hpc)] at hword
      exact Bool.noConfusion hword
    · next hword =>
      rw [List.filter_append, hflush blk hblk]
      by_cases hp : p c = true
      · rw [List.filter_cons_of_pos hp, List.filter_cons_of_pos hp, ih [] rfl]
        rfl
      · rw [List.filter_cons_of_neg (by simp [hp]), List.filter_cons_of_neg (by simp [hp]),
          ih [] rfl]
        rfl

/-- A whitespace character is not a word character. -/
theorem word_not_space {c : Char} (h : isSpace c = true) : isWordChar c = false := by
  simp [isSpace] at h
  rcases h with ((((h | h) | h) | h) | h) | h <;> subst h <;> decide

/-- An all-word list extends the current block. -/
theorem blocksAux_allword :
    ∀ {m : List Char}, m.all isWordChar = true → ∀ blk,
      blocksAux blk m = emitBlk (blk ++ m) := by
  intro m
  induction m with
  | nil => intro _ blk; rw [blocksAux, List.append_nil]
  | cons c m ih =>
    intro hm blk
    rw [List.all_cons, Bool.and_eq_true] at hm
    rw [blocksAux, if_pos hm.1, ih hm.2 (blk ++ [c]), List.append_assoc]
    rfl

/-- All-whitespace input contributes no further blocks. -/
theorem blocksAux_allspace :
    ∀ {m : List Char}, m.all isSpace = true → ∀ blk, blocksAux blk m = emitBlk blk := by
  intro m
  induction m with
  | nil => intro _ blk; rfl
  | cons c m ih =>
    intro hm blk
    rw [List.all_cons, Bool.and_eq_true] at hm
    rw [blocksAux, if_neg (by simp [word_not_space hm.1]), ih hm.2]
    show emitBlk blk ++ [] = emitBlk blk
    rw [List.append_nil]

/-- Blocks of an all-word prefix followed by a separator character. -/
theorem blocksAux_word_sep {c : Char} (hc : isWordChar c = false) :
    ∀ {A : List Char}, A.all isWordChar = true → ∀ (X blk : List Char),
      blocksAux blk (A ++ c :: X) = emitBlk (blk ++ A) ++ blocksAux [] X := by
  intro A
  induction A with
  | nil =>
    intro _ X blk
    rw [List.nil_append, blocksAux, if_neg (by simp [hc]), List.append_nil]
  | cons a A ih =>
    intro hA X blk
    rw [List.all_cons, Bool.and_eq_true] at hA
    rw [List.cons_append, blocksAux, if_pos hA.1, ih hA.2 X (blk ++ [a]), List.append_assoc]
    rfl

/-- Rendering a finished block commutes with the block-level
replacement. -/
theorem emitBlk_flushBlk {w r : List Char} (hr : r ≠ []) (blk : List Char) :
    emitBlk (flushBlk w r blk) =
      (emitBlk blk).map (fun b => if ciEqW b w then r else b) := by
  by_cases hb : blk.isEmpty = true
  · simp [flushBlk, emitBlk, hb]
  · by_cases hc : ciEqW blk w = true
    · have hre : r.isEmpty = false := by
        cases r
        · exact absurd rfl hr
        · rfl
      simp [flushBlk, emitBlk, hb, hc, hre]
    · simp [flushBlk, emitBlk, hb, hc]

/-- The blocks of a substituted list are the substituted blocks. -/
theorem blocksAux_wsubAux {w r : List Char} (hr : r ≠ []) (hw : r.all isWordChar = true) :
    ∀ (l blk : List Char), blk.all isWordChar = true →
      blocksAux [] (wsubAux w r blk l) =
        (blocksAux blk l).map (fun b => if ciEqW b w then r else b) := by
  intro l
  induction l with
  | nil =>
    intro blk hblk
    rw [wsubAux, blocksAux]
    have hfw : (flushBlk w r blk).all isWordChar = true := by
      unfold flushBlk
      split
      · rfl
      · split
        · exact hw
        · exact hblk
    rw [blocksAux_allword hfw [], List.nil_append]
    exact emitBlk_flushBlk hr blk
  | cons c cs ih =>
    intro blk hblk
    rw [wsubAux]
    split
    · next hword =>
      rw [ih (blk ++ [c]) (by simp [List.all_append, hblk, hword]), blocksAux, if_pos hword]
    · next hword =>
      have hfw : (flushBlk w r blk).all isWordChar = true := by
        unfold flushBlk
        split
        · rfl
        · split
          · exact hw
          · exact hblk
      have hcw : isWordChar c = false := by
        cases h : isWordChar c
        · rfl
        · exact absurd h hword
      rw [blocksAux_word_sep hcw hfw _ [], List.nil_append, ih [] rfl, blocksAux,
        if_neg (by simp [hcw]), List.map_append, emitBlk_flushBlk hr blk]

/-- Word substitution is the identity when no block matches the word. -/
theorem wsub_id {w r : List Char} :
    ∀ (l blk : List Char), (∀ b ∈ blocksAux blk l, ciEqW b w = false) →
      wsubAux w r blk l = blk ++ l := by
  intro l
  induction l with
  | nil =>
    intro blk hb
    rw [wsubAux, List.append_nil]
    unfold flushBlk
    split
    · next he => exact (List.isEmpty_iff.mp he).symm
    · next he =>
      have hm : blk ∈ blocksAux blk [] := by
        rw [blocksAux]
        unfold emitBlk
        rw [if_neg he]
        exact List.mem_cons_self blk []
      simp [hb blk hm]
  | cons c cs ih =>
    intro blk hb
    rw [wsubAux]
    split
    · next hword =>
      rw [blocksAux, if_pos hword] at hb
      rw [ih (blk ++ [c]) hb, List.append_assoc]
      rfl
    · next hword =>
      have hflush : flushBlk w r blk = blk := by
        unfold flushBlk
        split
        · next he => exact (List.isEmpty_iff.mp he).symm
        · next he =>
          have hm : blk ∈ blocksAux blk (c :: cs) := by
            rw [blocksAux, if_neg hword]
            apply List.mem_append_left
            unfold emitBlk
            rw [if_neg he]
            exact List.mem_cons_self blk []
          simp [hb blk hm]
      have h2 : ∀ b ∈ blocksAux [] cs, ciEqW b w = false := by
        intro b hbm
        apply hb
        rw [blocksAux, if_neg hword]
        exact List.mem_append_right _ hbm
      rw [hflush, ih [] h2, List.nil_append]

/-- A block of a substituted list is the replacement or an unreplaced
original block. -/
theorem blocks_wsub_mem {w r : List Char} (hr : r ≠ []) (hw : r.all isWordChar = true)
    (m b : List Char) (hb : b ∈ blocksAux [] (wsubAux w r [] m)) :
    b = r ∨ (b ∈ blocksAux [] m ∧ ciEqW b w = false) := by
  rw [blocksAux_wsubAux hr hw m [] rfl] at hb
  obtain ⟨c, hc, heq⟩ := List.mem_map.mp hb
  by_cases hcw : ciEqW c w = true
  · rw [if_pos hcw] at heq
    exact Or.inl heq.symm
  · rw [if_neg hcw] at heq
    subst heq
    exact Or.inr ⟨hc, by simpa using hcw⟩

/-- After the four substitutions no block matches any of the four
words. -/
theorem blocks_wordSubs_noRes (m b : List Char) (hb : b ∈ blocksAux [] (wordSubs m)) :
    ciEqW b "tamil".data = false ∧ ciEqW b "english".data = false ∧
      ciEqW b "dubbed".data = false ∧ ciEqW b "subbed".data = false := by
  unfold wordSubs wsub at hb
  rcases blocks_wsub_mem (by decide) (by decide) _ b hb with h | ⟨hb, h4⟩
  · subst h
    exact ⟨by decide, by decide, by decide, by decide⟩
  rcases blocks_wsub_mem (by decide) (by decide) _ b hb with h | ⟨hb, h3⟩
  · subst h
    exact ⟨by decide, by decide, by decide, by decide⟩
  rcases blocks_wsub_mem (by decide) (by decide) _ b hb with h | ⟨hb, h2⟩
  · subst h
    exact ⟨by decide, by decide, by decide, by decide⟩
  rcases blocks_wsub_mem (by decide) (by decide) _ b hb with h | ⟨hb, h1⟩
  · subst h
    exact ⟨by decide, by decide, by decide, by decide⟩
  exact ⟨h1, h2, h3, h4⟩

/-- Collapsing whitespace preserves the word blocks. -/
theorem blocksAux_collapseAux :
    ∀ (m blk : List Char) (prev : Bool), (prev = true → blk = []) →
      blocksAux blk (collapseAux prev m) = blocksAux blk m := by
  intro m
  induction m with
  | nil => intro blk prev _; rfl
  | cons c cs ih =>
    intro blk prev hpb
    rw [collapseAux]
    split
    · next hs =>
      have hcw : isWordChar c = false := word_not_space hs
      split
      · next hp =>
        have hblk := hpb hp
        subst hblk
        rw [ih [] true (fun _ => rfl), blocksAux, if_neg (by simp [hcw])]
        rfl
      · rw [blocksAux, if_neg (by decide), ih [] true (fun _ => rfl), blocksAux,
          if_neg (by simp [hcw])]
    · next hs =>
      by_cases hw : isWordChar c = true
      · rw [blocksAux, if_pos hw, ih (blk ++ [c]) false (fun h => Bool.noConfusion h),
          blocksAux, if_pos hw]
      · rw [blocksAux, if_neg hw, ih [] false (fun h => Bool.noConfusion h),
          blocksAux, if_neg hw]

/-- Leading whitespace contributes no blocks. -/
theorem blocks_dropWhile_ws :
    ∀ m : List Char, blocksAux [] (m.dropWhile isSpace) = blocksAux [] m := by
  intro m
  induction m with
  | nil => rfl
  | cons c cs ih =>
    rw [List.dropWhile_cons]
    split
    · next hs =>
      rw [ih, blocksAux, if_neg (by simp [word_not_space hs])]
      rfl
    · rfl

/-- Trailing whitespace contributes no blocks. -/
theorem blocksAux_append_ws {s : List Char} (hs : s.all isSpace = true) :
    ∀ (A blk : List Char), blocksAux blk (A ++ s) = blocksAux blk A := by
  intro A
  induction A with
  | nil =>
    intro blk
    rw [List.nil_append, blocksAux_allspace hs blk, blocksAux]
  | cons a A ih =>
    intro blk
    rw [List.cons_append]
    by_cases hw : isWordChar a = true
    · rw [blocksAux, if_pos hw, ih (blk ++ [a]), blocksAux, if_pos hw]
    · rw [blocksAux, if_neg hw, ih [], blocksAux, if_neg hw]

/-- The final collapsing and stripping stages preserve the word blocks. -/
theorem blocks_trim_collapse (m : List Char) :
    blocksAux [] (trimList (collapseAux false m)) = blocksAux [] m := by
  unfold trimList
  obtain ⟨s, hdec, hall⟩ := dropTrailingWs_decomp ((collapseAux false m).dropWhile isSpace)
  have h1 : blocksAux [] ((collapseAux false m).dropWhile isSpace) =
      blocksAux [] (dropTrailingWs ((collapseAux false m).dropWhile isSpace)) := by
    conv_lhs => rw [hdec]
    exact blocksAux_append_ws hall _ []
  rw [← h1, blocks_dropWhile_ws, blocksAux_collapseAux m [] false (fun h => Bool.noConfusion h)]

/-- Boolean conjunction elimination. -/
theorem band_true {a b : Bool} (h : (a && b) = true) : a = true ∧ b = true := by
  cases a
  · exact Bool.noConfusion h
  · cases b
    · exact Bool.noConfusion h
    · exact ⟨rfl, rfl⟩

/-- Boolean conjunction introduction. -/
theorem band_intro {a b : Bool} (h1 : a = true) (h2 : b = true) : (a && b) = true := by
  rw [h1, h2]
  rfl

/-- Boolean disjunction elimination. -/
theorem bor_true {a b : Bool} (h : (a || b) = true) : a = true ∨ b = true := by
  cases a
  · cases b
    · exact Bool.noConfusion h
    · exact Or.inr rfl
  · exact Or.inl rfl

/-- Boolean disjunction introduction. -/
theorem bor_intro {a b : Bool} (h : a = true ∨ b = true) : (a || b) = true := by
  rcases h with h | h
  · rw [h]
    rfl
  · rw [h]
    cases a <;> rfl

/-- After whitespace, collapsing never emits another space first. -/
theorem collapseAux_true_head :
    ∀ m : List Char, collapseAux true m = [] ∨
      ∃ c r, collapseAux true m = c :: r ∧ isSpace c = false := by
  intro m
  induction m with
  | nil => exact Or.inl rfl
  | cons c cs ih =>
    rw [collapseAux]
    by_cases hs : isSpace c = true
    · rw [if_pos hs, if_pos rfl]
      exact ih
    · rw [if_neg hs]
      exact Or.inr ⟨c, _, rfl, by simpa using hs⟩

/-- Collapsed output is in whitespace-normal form. -/
theorem isCollapsedWs_collapseAux :
    ∀ (m : List Char) (prev : Bool), isCollapsedWs (collapseAux prev m) = true := by
  intro m
  induction m with
  | nil => intro prev; rfl
  | cons c cs ih =>
    intro prev
    rw [collapseAux]
    by_cases hs : isSpace c = true
    · rw [if_pos hs]
      by_cases hp : prev = true
      · rw [if_pos hp]
        exact ih true
      · rw [if_neg hp]
        rcases collapseAux_true_head cs with h | ⟨c2, r, h, hc2⟩
        · rw [h]
          decide
        · have htl := ih true
          rw [h] at htl ⊢
          rw [isCollapsedWs]
          have hsp : isSpace ' ' = true := by decide
          simp [htl, hc2, hsp]
    · rw [if_neg hs]
      cases h : collapseAux false cs with
      | nil =>
        rw [isCollapsedWs]
        simp [hs]
      | cons c2 r =>
        have htl := ih false
        rw [h] at htl
        rw [isCollapsedWs]
        simp [hs, htl]

/-- Collapsing is the identity on whitespace-normal input. -/
theorem collapseAux_id_of_collapsed :
    ∀ m : List Char, isCollapsedWs m = true → collapseAux false m = m := by
  intro m
  induction m with
  | nil => intro _; rfl
  | cons c cs ih =>
    intro hm
    cases cs with
    | nil =>
      rw [isCollapsedWs] at hm
      rw [collapseAux]
      by_cases hs : isSpace c = true
      · have hc : c = ' ' := by
          rcases bor_true hm with h | h
          · rw [hs] at h
            exact absurd h (by decide)
          · exact of_decide_eq_true h
        rw [if_pos hs, if_neg (by decide), hc]
        rfl
      · rw [if_neg hs]
        rfl
    | cons c2 r =>
      rw [isCollapsedWs, Bool.and_eq_true] at hm
      obtain ⟨h1, h2⟩ := hm
      rw [collapseAux]
      by_cases hs : isSpace c = true
      · have h1' : c = ' ' ∧ isSpace c2 = false := by
          rcases bor_true h1 with h | h
          · rw [hs] at h
            exact absurd h (by decide)
          · rcases band_true h with ⟨ha, hb⟩
            exact ⟨of_decide_eq_true ha, by simpa using hb⟩
        rw [if_pos hs, if_neg (by decide), collapseAux, if_neg (by simp [h1'.2])]
        have hr := ih h2
        rw [collapseAux, if_neg (by simp [h1'.2])] at hr
        rw [hr, h1'.1]
      · rw [if_neg hs, ih h2]

/-- Unfolding equation for `dropTrailingWs` on a cons cell. -/
theorem dTW_cons (c : Char) (r : List Char) :
    dropTrailingWs (c :: r) =
      if (dropTrailingWs r).isEmpty && isSpace c then [] else c :: dropTrailingWs r := rfl

/-- Dropping trailing whitespace is idempotent. -/
theorem dTW_idem : ∀ l : List Char, dropTrailingWs (dropTrailingWs l) = dropTrailingWs l := by
  intro l
  induction l with
  | nil => rfl
  | cons c r ih =>
    rw [dTW_cons]
    by_cases h : ((dropTrailingWs r).isEmpty && isSpace c) = true
    · rw [if_pos h]
      rfl
    · rw [if_neg h, dTW_cons, ih, if_neg h]

/-- The strip result has no leading whitespace left. -/
theorem dropWhile_dTW_dropWhile :
    ∀ m : List Char,
      (dropTrailingWs (m.dropWhile isSpace)).dropWhile isSpace =
        dropTrailingWs (m.dropWhile isSpace) := by
  intro m
  induction m with
  | nil => rfl
  | cons c cs ih =>
    rw [List.dropWhile_cons]
    by_cases hs : isSpace c = true
    · rw [if_pos hs]
      exact ih
    · rw [if_neg hs, dTW_cons]
      by_cases h : ((dropTrailingWs cs).isEmpty && isSpace c) = true
      · rw [if_pos h]
        rfl
      · rw [if_neg h, List.dropWhile_cons, if_neg hs]

/-- Stripping is idempotent. -/
theorem trimList_idem (m : List Char) : trimList (trimList m) = trimList m := by
  unfold trimList
  rw [dropWhile_dTW_dropWhile, dTW_idem]

/-- Whitespace-normal form is preserved by dropping the head. -/
theorem isCollapsedWs_tail {c : Char} {r : List Char}
    (h : isCollapsedWs (c :: r) = true) : isCollapsedWs r = true := by
  cases r with
  | nil => rfl
  | cons c2 r2 =>
    rw [isCollapsedWs] at h
    exact (band_true h).2

/-- Whitespace-normal form is preserved by dropping leading
whitespace. -/
theorem isCollapsedWs_dropWhile :
    ∀ m : List Char, isCollapsedWs m = true → isCollapsedWs (m.dropWhile isSpace) = true := by
  intro m
  induction m with
  | nil => intro _; rfl
  | cons c cs ih =>
    intro h
    rw [List.dropWhile_cons]
    split
    · exact ih (isCollapsedWs_tail h)
    · exact h

/-- Whitespace-normal form is inherited by list prefixes. -/
theorem isCollapsedWs_append_left :
    ∀ (A B : List Char), isCollapsedWs (A ++ B) = true → isCollapsedWs A = true := by
  intro A
  induction A with
  | nil => intro B _; rfl
  | cons a A ih =>
    intro B h
    cases A with
    | nil =>
      cases B with
      | nil => exact h
      | cons b B2 =>
        rw [List.cons_append, List.nil_append, isCollapsedWs] at h
        rcases band_true h with ⟨h1, _⟩
        rw [isCollapsedWs]
        rcases bor_true h1 with h2 | h2
        · exact bor_intro (Or.inl h2)
        · exact bor_intro (Or.inr (band_true h2).1)
    | cons a2 A2 =>
      rw [List.cons_append, List.cons_append, isCollapsedWs] at h
      rcases band_true h with ⟨h1, h2⟩
      rw [isCollapsedWs]
      refine band_intro h1 ?_
      exact ih B (by rw [List.cons_append]; exact h2)

/-- Whitespace-normal form is preserved by stripping. -/
theorem isCollapsedWs_trimList {m : List Char} (h : isCollapsedWs m = true) :
    isCollapsedWs (trimList m) = true := by
  unfold trimList
  obtain ⟨s, hdec, _⟩ := dropTrailingWs_decomp (m.dropWhile isSpace)
  apply isCollapsedWs_append_left _ s
  rw [← hdec]
  exact isCollapsedWs_dropWhile m h

/-- Stripping after collapsing is idempotent as a compound stage. -/
theorem trim_collapse_idem (m : List Char) :
    trimList (collapseAux false (trimList (collapseAux false m))) =
      trimList (collapseAux false m) := by
  have h1 : isCollapsedWs (collapseAux false m) = true := isCollapsedWs_collapseAux m false
  have h2 : isCollapsedWs (trimList (collapseAux false m)) = true := isCollapsedWs_trimList h1
  rw [collapseAux_id_of_collapsed _ h2, trimList_idem]

/-- A character whose `okChar` test fails does not occur in a list of
benign characters. -/
theorem not_mem_of_ok {l : List Char} (H : ∀ a ∈ l, okChar a = true) {c : Char}
    (hc : okChar c = false) : c ∉ l := by
  intro hm
  rw [H c hm] at hc
  exact Bool.noConfusion hc

/-- A benign character is not in the stripped punctuation class. -/
theorem not_punct_of_ok {a : Char} (h : okChar a = true) : isPunct a = false := by
  unfold okChar at h
  rcases band_true h with ⟨h1, _⟩
  rcases band_true h1 with ⟨h2, _⟩
  simpa using h2

/-- The word substitutions preserve benignity of all characters. -/
theorem mem_wordSubs_ok {m : List Char} (hm : ∀ a ∈ m, okChar a = true) :
    ∀ a ∈ wordSubs m, okChar a = true := by
  unfold wordSubs wsub
  intro a ha
  rcases wsubAux_subset _ _ _ _ _ ha with h | h | h
  · exact absurd h (List.not_mem_nil a)
  · have h' : a ∈ ['S', 'u', 'b'] := h
    fin_cases h' <;> decide
  rcases wsubAux_subset _ _ _ _ _ h with h | h | h
  · exact absurd h (List.not_mem_nil a)
  · have h' : a ∈ ['D', 'u', 'b'] := h
    fin_cases h' <;> decide
  rcases wsubAux_subset _ _ _ _ _ h with h | h | h
  · exact absurd h (List.not_mem_nil a)
  · have h' : a ∈ ['E', 'n', 'g'] := h
    fin_cases h' <;> decide
  rcases wsubAux_subset _ _ _ _ _ h with h | h | h
  · exact absurd h (List.not_mem_nil a)
  · have h' : a ∈ ['T', 'a', 'm'] := h
    fin_cases h' <;> decide
  · exact hm a h

/-- Whitespace is not a bracket delimiter. -/
theorem brk_not_space : ∀ c : Char, isSpace c = true →
    (decide (c = '[') || decide (c = ']')) = false := by
  intro c h
  simp [isSpace] at h
  rcases h with ((((h | h) | h) | h) | h) | h <;> subst h <;> decide

/-- A bracket delimiter is not a word character. -/
theorem brk_not_word : ∀ c : Char, (decide (c = '[') || decide (c = ']')) = true →
    isWordChar c = false := by
  intro c h
  rcases bor_true h with h | h
  · rw [of_decide_eq_true h]
    decide
  · rw [of_decide_eq_true h]
    decide

/-- On benign inputs (no punctuation-class character, no newline, no
dash) the shared cleaning pipeline is idempotent. -/
theorem cleanSteps_idem {l : List Char} (H : ∀ a ∈ l, okChar a = true) :
    cleanAnimeNameSteps (cleanAnimeNameSteps l) = cleanAnimeNameSteps l := by
  have hNl : '\n' ∉ l := not_mem_of_ok H (by decide)
  have hz1ok : ∀ a ∈ removeDelims '[' ']' l, okChar a = true := by
    intro a ha
    rcases rdAux_subset '[' ']' l [] a ha with h | h
    · exact absurd h (List.not_mem_nil a)
    · exact H a h
  have e0 : stripChannelTag l = l := stripChannelTag_id (not_mem_of_ok H (by decide))
  have e1 : removeDelims '(' ')' (removeDelims '[' ']' l) = removeDelims '[' ']' l :=
    removeDelims_id (not_mem_of_ok hz1ok (by decide))
      (hasPair_false_of_no_opn (not_mem_of_ok hz1ok (by decide)))
  have e2 : removeLeadingDash (removeDelims '[' ']' l) = removeDelims '[' ']' l :=
    removeLeadingDash_id (not_mem_of_ok hz1ok (by decide))
  have e3 : removeTrailingDash (removeDelims '[' ']' l) = removeDelims '[' ']' l :=
    removeTrailingDash_id (not_mem_of_ok hz1ok (by decide))
  have e4 : removePunct (wordSubs (removeDelims '[' ']' l)) =
      wordSubs (removeDelims '[' ']' l) :=
    removePunct_id (fun a ha => not_punct_of_ok (mem_wordSubs_ok hz1ok a ha))
  have efirst : cleanAnimeNameSteps l =
      trimList (collapseWs (wordSubs (removeDelims '[' ']' l))) := by
    unfold cleanAnimeNameSteps
    rw [e0, e1, e2, e3, e4]
  have hymem : ∀ a ∈ cleanAnimeNameSteps l, okChar a = true := by
    rw [efirst]
    intro a ha
    have h1 := trimList_subset _ a ha
    rcases collapseAux_subset _ false a h1 with h2 | h2
    · exact mem_wordSubs_ok hz1ok a h2
    · subst h2
      decide
  have hypair : hasPair '[' ']' (cleanAnimeNameSteps l) = false := by
    rw [efirst, hasPair_eq_filter '[' ']', filter_trimList_ws brk_not_space, collapseWs,
      filter_collapseAux_ws brk_not_space, wordSubs, wsub, wsub, wsub, wsub,
      filter_wsubAux_word brk_not_word (by decide) _ [] rfl,
      filter_wsubAux_word brk_not_word (by decide) _ [] rfl,
      filter_wsubAux_word brk_not_word (by decide) _ [] rfl,
      filter_wsubAux_word brk_not_word (by decide) _ [] rfl,
      ← hasPair_eq_filter '[' ']' (removeDelims '[' ']' l)]
    exact rdAux_nopair (by decide) l hNl [] (List.not_mem_nil ']')
  have f0 : stripChannelTag (cleanAnimeNameSteps l) = cleanAnimeNameSteps l :=
    stripChannelTag_id (not_mem_of_ok hymem (by decide))
  have f1 : removeDelims '[' ']' (cleanAnimeNameSteps l) = cleanAnimeNameSteps l :=
    removeDelims_id (not_mem_of_ok hymem (by decide)) hypair
  have f2 : removeDelims '(' ')' (cleanAnimeNameSteps l) = cleanAnimeNameSteps l :=
    removeDelims_id (not_mem_of_ok hymem (by decide))
      (hasPair_false_of_no_opn (not_mem_of_ok hymem (by decide)))
  have f3 : removeLeadingDash (cleanAnimeNameSteps l) = cleanAnimeNameSteps l :=
    removeLeadingDash_id (not_mem_of_ok hymem (by decide))
  have f4 : removeTrailingDash (cleanAnimeNameSteps l) = cleanAnimeNameSteps l :=
    removeTrailingDash_id (not_mem_of_ok hymem (by decide))
  have f5 : wordSubs (cleanAnimeNameSteps l) = cleanAnimeNameSteps l := by
    have hbl : ∀ b ∈ blocksAux [] (cleanAnimeNameSteps l),
        ciEqW b "tamil".data = false ∧ ciEqW b "english".data = false ∧
          ciEqW b "dubbed".data = false ∧ ciEqW b "subbed".data = false := by
      intro b hb
      rw [efirst, collapseWs, blocks_trim_collapse] at hb
      exact blocks_wordSubs_noRes _ b hb
    unfold wordSubs wsub
    rw [wsub_id _ [] (fun b hb => (hbl b hb).1), List.nil_append,
      wsub_id _ [] (fun b hb => (hbl b hb).2.1), List.nil_append,
      wsub_id _ [] (fun b hb => (hbl b hb).2.2.1), List.nil_append,
      wsub_id _ [] (fun b hb => (hbl b hb).2.2.2), List.nil_append]
  have f6 : removePunct (cleanAnimeNameSteps l) = cleanAnimeNameSteps l :=
    removePunct_id (fun a ha => not_punct_of_ok (hymem a ha))
  rw [cleanAnimeNameSteps, f0, f1, f2, f3, f4, f5, f6, efirst, collapseWs, collapseWs]
  exact trim_collapse_idem _

/-- C7 (corrected): the name cleaner is not idempotent on every string
(see the counterexample), but it is idempotent on every input none of
whose characters is in the stripped punctuation class, a newline or a
dash; this holds for the identical `clean_anime_name` methods of both
`src/main.py` and `src/bot.py`. -/
theorem c7_clean_idempotent_amended (s : String) (h : s.data.all okChar = true) :
    MainPy.clean_anime_name (MainPy.clean_anime_name s) = MainPy.clean_anime_name s ∧
      BotPy.clean_anime_name (BotPy.clean_anime_name s) = BotPy.clean_anime_name s := by
  have H : ∀ a ∈ s.data, okChar a = true := fun a ha => by
    simpa using List.all_eq_true.mp h a ha
  have key : cleanAnimeNameSteps (cleanAnimeNameSteps s.data) = cleanAnimeNameSteps s.data :=
    cleanSteps_idem H
  constructor
  · unfold MainPy.clean_anime_name
    by_cases hs : s = ""
    · rw [if_pos hs, if_pos rfl]
    · rw [if_neg hs]
      by_cases hy : String.mk (cleanAnimeNameSteps s.data) = ""
      · rw [if_pos hy]
        exact hy.symm
      · rw [if_neg hy]
        exact congrArg String.mk key
  · unfold BotPy.clean_anime_name
    by_cases hs : s = ""
    · rw [if_pos hs, if_pos rfl]
    · rw [if_neg hs]
      by_cases hy : String.mk (cleanAnimeNameSteps s.data) = ""
      · rw [if_pos hy]
        exact hy.symm
      · rw [if_neg hy]
        exact congrArg String.mk key

/-- Witness for C7 at the benign input "Naruto Tamil". -/
theorem c7_clean_idempotent_amended_witness :
    ("Naruto Tamil".data.all okChar = true) ∧
      (MainPy.clean_anime_name (MainPy.clean_anime_name "Naruto Tamil") =
          MainPy.clean_anime_name "Naruto Tamil" ∧
        BotPy.clean_anime_name (BotPy.clean_anime_name "Naruto Tamil") =
          BotPy.clean_anime_name "Naruto Tamil") :=
  ⟨by decide, c7_clean_idempotent_amended "Naruto Tamil" (by decide)⟩

/-- C7 counterexample: cleaning "Tami.l" gives "Tamil" (the dot is only
removed after the word substitutions ran), and cleaning again replaces
the now-complete word, so the cleaner is not idempotent. -/
theorem c7_counterexample :
    MainPy.clean_anime_name (MainPy.clean_anime_name "Tami.l") ≠
      MainPy.clean_anime_name "Tami.l" := by
  decide
